import Mathlib

/-!
Verification model of the `pgn-reader` streaming PGN parser
(`src/reader.rs`, `src/types.rs`).

Bytes are modelled as natural numbers (all comparisons in the source are
against fixed ASCII literals, no wrap-around arithmetic occurs).  The
`ReadPgn` trait is modelled as a structure of scanning primitives over an
abstract adapter state; the trait's default methods become functions that
are generic over that structure.  Rust `Result` is `Except`, a Rust panic
(out-of-range slice index / over-consume of the buffer) is `Option.none`,
and visitor callbacks are recorded as a trace of events threaded through
the state.
-/

namespace PgnModel

abbrev Byte := Nat

/-- A visitor callback occurrence.  The constructors mirror the methods of
the `Visitor` trait; `san`/`nag`/`comment`/variation/`outcome` callbacks
exist in the trait but it is part of the verification to determine whether
the reader ever emits them. -/
inductive Ev where
  | beginGame : Ev
  | beginHeaders : Ev
  | header (key value : List Byte) : Ev
  | endHeaders (skip : Bool) : Ev
  | sanEv (tok : List Byte) : Ev
  | nagEv (n : Nat) : Ev
  | commentEv (c : List Byte) : Ev
  | beginVariationEv : Ev
  | endVariationEv : Ev
  | outcomeEv : Ev
  | endGame : Ev
  deriving DecidableEq, Repr

/-- A visitor: the data-free callbacks are recorded in the trace; the only
callback results the reader engine can consult are the `Skip` values.  A
deterministic visitor's answer is a function of the callbacks it has
received so far.  `begin_variation` is declared by the `Visitor` trait
(with default `Skip(false)`), mirrored here even though the reader code
under `src/` never consults it. -/
structure Visitor where
  endHeadersSkip : List Ev → Bool
  beginVariationSkip : List Ev → Bool

/-- The scanning monad: state `σ` plus the trace of emitted events, a Rust
`Result` (`Except ε`), and an outer `Option` whose `none` models a Rust
panic (and, for the fuel-indexed loops below, fuel exhaustion — the
no-panic theorems show the supplied fuel is sufficient). An error result
keeps the state, matching Rust's mutate-in-place semantics. -/
def M (σ ε α : Type) : Type := σ × List Ev → Option (Except ε α × σ × List Ev)

instance {ε α : Type} [DecidableEq ε] [DecidableEq α] : DecidableEq (Except ε α)
  | .error e₁, .error e₂ =>
    if h : e₁ = e₂ then .isTrue (by rw [h]) else .isFalse (by simp [h])
  | .error _, .ok _ => .isFalse (by simp)
  | .ok _, .error _ => .isFalse (by simp)
  | .ok a₁, .ok a₂ =>
    if h : a₁ = a₂ then .isTrue (by rw [h]) else .isFalse (by simp [h])

instance : DecidableEq Empty := fun a => a.elim

/-- The `ReadPgn` trait's required/overridable operations.  `fill` is
`fill_buffer`, `buf` is `buffer()`, `consume` is checked (a count larger
than the occupied bytes is the panic `none`).  `bump`, `peek`,
`consumeAll` have trait defaults overridden by `PgnReader`; both
behaviours are total, so they are plain functions here. -/
structure Adapter (σ ε : Type) where
  fill : σ → Except ε Bool × σ
  buf : σ → List Byte
  consume : σ → Nat → Option σ
  bump : σ → Option Byte × σ
  peek : σ → Option Byte
  consumeAll : σ → σ

variable {σ ε : Type}

/-- `fill_buffer()?` on the state-plus-trace pair. -/
def fillM (A : Adapter σ ε) : M σ ε Bool := fun st =>
  match A.fill st.1 with
  | (.ok b, s') => some (.ok b, s', st.2)
  | (.error e, s') => some (.error e, s', st.2)

/-- `memchr::memchr`: index of the first occurrence of `needle`. -/
def memchr (needle : Byte) : List Byte → Option Nat
  | [] => none
  | c :: rest => if c = needle then some 0 else (memchr needle rest).map (· + 1)

/-- `memchr::memchr2`: index of the first occurrence of `n₁` or `n₂`. -/
def memchr2 (n₁ n₂ : Byte) : List Byte → Option Nat
  | [] => none
  | c :: rest =>
    if c = n₁ ∨ c = n₂ then some 0 else (memchr2 n₁ n₂ rest).map (· + 1)

/-- `memchr::memchr3`: index of the first occurrence of `n₁`, `n₂` or `n₃`. -/
def memchr3 (n₁ n₂ n₃ : Byte) : List Byte → Option Nat
  | [] => none
  | c :: rest =>
    if c = n₁ ∨ c = n₂ ∨ c = n₃ then some 0 else (memchr3 n₁ n₂ n₃ rest).map (· + 1)

/-! ### The `ReadPgn` default methods (reader.rs lines 46–260)

Each looping method takes a fuel argument; exhausted fuel is `none`, and
the no-panic/termination theorems below show the fuel supplied by the
entry points is sufficient. -/

/-- `skip_bom` (reader.rs:67). -/
def skip_bom (A : Adapter σ ε) : M σ ε Unit := fun st =>
  match fillM A st with
  | none => none
  | some (.error e, s, t) => some (.error e, s, t)
  | some (.ok b, s, t) =>
    if b ∧ List.isPrefixOf [0xEF, 0xBB, 0xBF] (A.buf s) then
      match A.consume s 3 with
      | some s' => some (.ok (), s', t)
      | none => none
    else some (.ok (), s, t)

/-- `skip_until` (reader.rs:74). -/
def skip_until (A : Adapter σ ε) (needle : Byte) : Nat → M σ ε Unit
  | 0 => fun _ => none
  | fuel + 1 => fun st =>
    match fillM A st with
    | none => none
    | some (.error e, s, t) => some (.error e, s, t)
    | some (.ok b, s, t) =>
      if b then
        match memchr needle (A.buf s) with
        | some pos =>
          match A.consume s pos with
          | some s' => some (.ok (), s', t)
          | none => none
        | none => skip_until A needle fuel (A.consumeAll s, t)
      else some (.ok (), s, t)

/-- `skip_line` (reader.rs:87). -/
def skip_line (A : Adapter σ ε) (fuel : Nat) : M σ ε Unit := fun st =>
  match skip_until A 10 fuel st with
  | none => none
  | some (.error e, s, t) => some (.error e, s, t)
  | some (.ok _, s, t) => some (.ok (), (A.bump s).2, t)

/-- Inner `while let Some(ch) = self.peek()` loop of `skip_whitespace`
(reader.rs:95–106); returns `true` when the method returns, `false` when
the buffer is exhausted and the outer loop refills. -/
def skip_whitespace_inner (A : Adapter σ ε) : Nat → M σ ε Bool
  | 0 => fun _ => none
  | fuel + 1 => fun st =>
    match A.peek st.1 with
    | some ch =>
      if ch = 32 ∨ ch = 9 ∨ ch = 13 ∨ ch = 10 then
        skip_whitespace_inner A fuel ((A.bump st.1).2, st.2)
      else if ch = 37 then
        match skip_line A fuel ((A.bump st.1).2, st.2) with
        | none => none
        | some (.error e, s, t) => some (.error e, s, t)
        | some (.ok _, s, t) => skip_whitespace_inner A fuel (s, t)
      else some (.ok true, st.1, st.2)
    | none => some (.ok false, st.1, st.2)

/-- `skip_whitespace` (reader.rs:93). -/
def skip_whitespace (A : Adapter σ ε) : Nat → M σ ε Unit
  | 0 => fun _ => none
  | fuel + 1 => fun st =>
    match fillM A st with
    | none => none
    | some (.error e, s, t) => some (.error e, s, t)
    | some (.ok b, s, t) =>
      if b then
        match skip_whitespace_inner A fuel (s, t) with
        | none => none
        | some (.error e, s', t') => some (.error e, s', t')
        | some (.ok r, s', t') =>
          if r then some (.ok (), s', t') else skip_whitespace A fuel (s', t')
      else some (.ok (), s, t)

/-- Inner `while let Some(ch) = self.peek()` loop of `skip_ket`
(reader.rs:114–132).  In the `%` branch the source reads
`self.skip_line(); return Ok(());` — the `Result` of `skip_line` is
discarded (state changes are kept, an error is not propagated), exactly
as written. -/
def skip_ket_inner (A : Adapter σ ε) : Nat → M σ ε Bool
  | 0 => fun _ => none
  | fuel + 1 => fun st =>
    match A.peek st.1 with
    | some ch =>
      if ch = 32 ∨ ch = 9 ∨ ch = 13 ∨ ch = 93 then
        skip_ket_inner A fuel ((A.bump st.1).2, st.2)
      else if ch = 37 then
        match skip_line A fuel ((A.bump st.1).2, st.2) with
        | none => none
        | some (_, s, t) => some (.ok true, s, t)
      else if ch = 10 then
        some (.ok true, (A.bump st.1).2, st.2)
      else some (.ok true, st.1, st.2)
    | none => some (.ok false, st.1, st.2)

/-- `skip_ket` (reader.rs:112). -/
def skip_ket (A : Adapter σ ε) : Nat → M σ ε Unit
  | 0 => fun _ => none
  | fuel + 1 => fun st =>
    match fillM A st with
    | none => none
    | some (.error e, s, t) => some (.error e, s, t)
    | some (.ok b, s, t) =>
      if b then
        match skip_ket_inner A fuel (s, t) with
        | none => none
        | some (.error e, s', t') => some (.error e, s', t')
        | some (.ok r, s', t') =>
          if r then some (.ok (), s', t') else skip_ket A fuel (s', t')
      else some (.ok (), s, t)

/-- The `loop { match memchr3(b'\\', b'"', b'\n', ..) .. }` scan of
`read_headers` (reader.rs:166–185) that finds the end of a quoted header
value.  Returns `(right_quote, consumed)`.  The fuel argument makes the
recursion structural: each continuing iteration advances `rq` by at least
two while the `None` arm stops at `buffer.length`, so the
`buffer.length + 1` fuel supplied by `read_headers` is never exhausted;
the fuel-0 arm coincides with the `None` arm. -/
def find_right_quote (buffer : List Byte) : Nat → Nat → Nat × Nat
  | _, 0 => (buffer.length, buffer.length)
  | rq, fuel + 1 =>
    match memchr3 92 34 10 (buffer.drop rq) with
    | some delta =>
      if buffer.getD (rq + delta) 0 = 34 then (rq + delta, rq + delta + 1)
      else if buffer.getD (rq + delta) 0 = 10 then (rq + delta, rq + delta)
      else find_right_quote buffer (min (rq + delta + 2) buffer.length) fuel
    | none => (buffer.length, buffer.length)

/-- `read_headers` (reader.rs:138).  The `[`-record arm bumps the `[`,
locates the first quote or newline (`memchr2`), reports the record
(quoted value via `find_right_quote`, or key-with-empty-value recovery
when a newline comes first), consumes it, runs `skip_ket` after a quoted
record, and continues; a `%` line is skipped; anything else ends the
block. -/
def read_headers (A : Adapter σ ε) : Nat → M σ ε Unit
  | 0 => fun _ => none
  | fuel + 1 => fun st =>
    match fillM A st with
    | none => none
    | some (.error e, s, t) => some (.error e, s, t)
    | some (.ok b, s, t) =>
      if b then
        match A.peek s with
        | some ch =>
          if ch = 91 then
            let s := (A.bump s).2
            let buffer := A.buf s
            match memchr2 34 10 buffer with
            | some i =>
              if buffer.getD i 0 = 34 then
                let left_quote := i
                let space :=
                  if 0 < left_quote ∧ buffer.getD (left_quote - 1) 0 = 32 then
                    left_quote - 1
                  else left_quote
                let value_start := left_quote + 1
                let rc := find_right_quote buffer value_start (buffer.length + 1)
                let t := t ++ [.header (buffer.take space)
                  ((buffer.drop value_start).take (rc.1 - value_start))]
                match A.consume s rc.2 with
                | none => none
                | some s' =>
                  match skip_ket A fuel (s', t) with
                  | none => none
                  | some (.error e, s'', t'') => some (.error e, s'', t'')
                  | some (.ok _, s'', t'') => read_headers A fuel (s'', t'')
              else
                let t := t ++ [.header (buffer.take i) []]
                match A.consume s (i + 1) with
                | none => none
                | some s' => read_headers A fuel (s', t)
            | none =>
              match skip_line A fuel (s, t) with
              | none => none
              | some (.error e, s', t') => some (.error e, s', t')
              | some (.ok _, s', t') => read_headers A fuel (s', t')
          else if ch = 37 then
            match skip_line A fuel (s, t) with
            | none => none
            | some (.error e, s', t') => some (.error e, s', t')
            | some (.ok _, s', t') => read_headers A fuel (s', t')
          else some (.ok (), s, t)
        | none => read_headers A fuel (s, t)
      else some (.ok (), s, t)

/-- `skip_movetext` (reader.rs:200). -/
def skip_movetext (A : Adapter σ ε) : Nat → M σ ε Unit
  | 0 => fun _ => none
  | fuel + 1 => fun st =>
    match fillM A st with
    | none => none
    | some (.error e, s, t) => some (.error e, s, t)
    | some (.ok b, s, t) =>
      if b then
        match A.bump s with
        | (some ch, s) =>
          if ch = 123 then
            match skip_until A 125 fuel (s, t) with
            | none => none
            | some (.error e, s', t') => some (.error e, s', t')
            | some (.ok _, s', t') => skip_movetext A fuel ((A.bump s').2, t')
          else if ch = 59 then
            match skip_until A 10 fuel (s, t) with
            | none => none
            | some (.error e, s', t') => some (.error e, s', t')
            | some (.ok _, s', t') => skip_movetext A fuel (s', t')
          else if ch = 10 then
            match A.peek s with
            | some c2 =>
              if c2 = 37 then
                match skip_until A 10 fuel (s, t) with
                | none => none
                | some (.error e, s', t') => some (.error e, s', t')
                | some (.ok _, s', t') => skip_movetext A fuel (s', t')
              else if c2 = 10 ∨ c2 = 91 then some (.ok (), s, t)
              else if c2 = 13 then
                let s := (A.bump s).2
                match A.peek s with
                | some c3 =>
                  if c3 = 10 then some (.ok (), s, t)
                  else skip_movetext A fuel (s, t)
                | none => skip_movetext A fuel (s, t)
              else skip_movetext A fuel (s, t)
            | none => skip_movetext A fuel (s, t)
          else
            let consumed := (memchr3 10 123 59 (A.buf s)).getD (A.buf s).length
            match A.consume s consumed with
            | some s' => skip_movetext A fuel (s', t)
            | none => none
        | (none, s) => skip_movetext A fuel (s, t)
      else some (.ok (), s, t)

/-- `read_game` (reader.rs:235).  Both branches of the
`if let Skip(false) = visitor.end_headers()` call `skip_movetext`,
exactly as in the source; the visitor's `end_headers` answer is a
function of the callbacks it has received so far. -/
def read_game (A : Adapter σ ε) (V : Visitor) (fuel : Nat) : M σ ε (Option Unit) := fun st =>
  match skip_bom A st with
  | none => none
  | some (.error e, s, t) => some (.error e, s, t)
  | some (.ok _, s, t) =>
    match skip_whitespace A fuel (s, t) with
    | none => none
    | some (.error e, s, t) => some (.error e, s, t)
    | some (.ok _, s, t) =>
      match fillM A (s, t) with
      | none => none
      | some (.error e, s, t) => some (.error e, s, t)
      | some (.ok b, s, t) =>
        if !b then some (.ok none, s, t)
        else
          let t := t ++ [.beginGame, .beginHeaders]
          match read_headers A fuel (s, t) with
          | none => none
          | some (.error e, s, t) => some (.error e, s, t)
          | some (.ok _, s, t) =>
            let skip := V.endHeadersSkip t
            let t := t ++ [.endHeaders skip]
            match
              (if skip = false then skip_movetext A fuel (s, t)
               else skip_movetext A fuel (s, t)) with
            | none => none
            | some (.error e, s, t) => some (.error e, s, t)
            | some (.ok _, s, t) =>
              match skip_whitespace A fuel (s, t) with
              | none => none
              | some (.error e, s, t) => some (.error e, s, t)
              | some (.ok _, s, t) => some (.ok (some ()), s, t ++ [.endGame])

/-! ### The `SliceReader` adapter (reader.rs:335–370) -/

structure SliceSt where
  bytes : List Byte
  pos : Nat
  deriving DecidableEq, Repr

/-- `impl ReadPgn for SliceReader`: `fill_buffer` is `pos < len`,
`buffer` is `&bytes[pos..]`, `consume` adds to `pos` (checked: exceeding
the length is the panic the `debug_assert!` guards).  `bump`, `peek`,
`consume_all` are the trait defaults, written out over this state. -/
def sliceAdapter : Adapter SliceSt Empty where
  fill s := (.ok (decide (s.pos < s.bytes.length)), s)
  buf s := s.bytes.drop s.pos
  consume s n := if s.pos + n ≤ s.bytes.length then some ⟨s.bytes, s.pos + n⟩ else none
  bump s :=
    match (s.bytes.drop s.pos).head? with
    | some c => (some c, ⟨s.bytes, s.pos + 1⟩)
    | none => (none, s)
  peek s := (s.bytes.drop s.pos).head?
  consumeAll s := ⟨s.bytes, s.pos + (s.bytes.length - s.pos)⟩

/-- `SliceReader::read_game` starting from position 0 with an empty trace. -/
def slice_read_game (bytes : List Byte) (V : Visitor) (fuel : Nat) :
    Option (Except Empty (Option Unit) × SliceSt × List Ev) :=
  read_game sliceAdapter V fuel (⟨bytes, 0⟩, [])

/-! ### The `PgnReader` adapter (reader.rs:262–333) -/

/-- One `Read::read` call's outcome: a chunk of bytes (possibly empty —
`io::Read` allows a zero-length read that does not mean end-of-stream) or
an I/O error.  An exhausted list means the source keeps reporting
end-of-stream (reads return 0). -/
inductive RdEvt where
  | chunk (data : List Byte) : RdEvt
  | ioError : RdEvt
  deriving DecidableEq, Repr

def minBufferSize : Nat := 8192

structure PgnSt where
  buffer : List Byte
  source : List RdEvt
  deriving DecidableEq, Repr

/-- The `while self.buffer.len() < MIN_BUFFER_SIZE` loop of
`PgnReader::fill_buffer` (reader.rs:294–308): each iteration performs one
`inner.read`; a zero-length read breaks, an error propagates (with the
source advanced past the failed read). -/
def pgnFillLoop (buffer : List Byte) : List RdEvt → Except Unit Unit × List Byte × List RdEvt
  | [] => (.ok (), buffer, [])
  | .ioError :: rest => (.error (), buffer, rest)
  | .chunk c :: rest =>
    if c.length = 0 then (.ok (), buffer, rest)
    else
      if (buffer ++ c).length < minBufferSize then pgnFillLoop (buffer ++ c) rest
      else (.ok (), buffer ++ c, rest)

/-- `impl ReadPgn for PgnReader`: `fill_buffer` loops reads until the
window holds `MIN_BUFFER_SIZE` bytes or the source stops, then returns
whether any byte is buffered; `consume` drops from the front (checked);
`bump`/`peek`/`consume_all` are the `SliceDeque` overrides
(`pop_front`/`front`/`clear`). -/
def pgnAdapter : Adapter PgnSt Unit where
  fill s :=
    if s.buffer.length < minBufferSize then
      match pgnFillLoop s.buffer s.source with
      | (.ok (), b, src) => (.ok (decide (b ≠ [])), ⟨b, src⟩)
      | (.error (), b, src) => (.error (), ⟨b, src⟩)
    else (.ok (decide (s.buffer ≠ [])), s)
  buf s := s.buffer
  consume s n := if n ≤ s.buffer.length then some ⟨s.buffer.drop n, s.source⟩ else none
  bump s := (s.buffer.head?, ⟨s.buffer.tail, s.source⟩)
  peek s := s.buffer.head?
  consumeAll s := ⟨[], s.source⟩

/-- `PgnReader::read_game` over a given source, empty window, empty trace. -/
def pgn_read_game (src : List RdEvt) (V : Visitor) (fuel : Nat) :
    Option (Except Unit (Option Unit) × PgnSt × List Ev) :=
  read_game pgnAdapter V fuel (⟨[], src⟩, [])

/-! ### Projections and small helpers -/

/-- The callback trace of a run (a panicked run has produced no observable
callbacks). -/
def traceOf {ε α σT : Type} : Option (Except ε α × σT × List Ev) → List Ev
  | none => []
  | some (_, _, t) => t

/-- The observable outcome of a run: `none` = panic, `some none` = I/O
error surfaced, `some (some a)` = normal return. -/
def outcomeOf {ε α σT : Type} : Option (Except ε α × σT × List Ev) → Option (Option α)
  | none => none
  | some (.error _, _, _) => some none
  | some (.ok a, _, _) => some (some a)

/-- The final adapter state of a non-panicked run. -/
def stateOf {ε α σT : Type} [Inhabited σT] : Option (Except ε α × σT × List Ev) → σT
  | none => default
  | some (_, s, _) => s

instance : Inhabited PgnSt := ⟨⟨[], []⟩⟩
instance : Inhabited SliceSt := ⟨⟨[], 0⟩⟩

/-- The correspondence between a slice-reader state and a buffered-reader
state whose window holds exactly the remaining content and whose source
is exhausted (`mapRes` lifts it to run results; a slice-side error is
impossible, its error type being `Empty`). -/
def sliceToPgn (s : SliceSt) : PgnSt := ⟨s.bytes.drop s.pos, []⟩

def mapRes {α : Type} :
    Option (Except Empty α × SliceSt × List Ev) →
      Option (Except Unit α × PgnSt × List Ev)
  | none => none
  | some (.error e, _, _) => e.elim
  | some (.ok a, s, t) => some (.ok a, sliceToPgn s, t)

/-- ASCII bytes of a string literal. -/
def asciiBytes (s : String) : List Byte := s.data.map Char.toNat

/-- The visitor that answers `Skip(b)` from `end_headers` regardless of
history (and `Skip(v)` from `begin_variation`). -/
def constVisitor (b v : Bool) : Visitor := ⟨fun _ => b, fun _ => v⟩

/-! ### Value types (types.rs) -/

/-- `btoi::btou::<u8>` digit loop: checked `acc * 10 + digit` against the
`u8` bound; a non-digit byte or overflow fails. -/
def btou_go (acc : Nat) : List Byte → Option Nat
  | [] => some acc
  | c :: rest =>
    if 48 ≤ c ∧ c ≤ 57 then
      if acc * 10 + (c - 48) ≤ 255 then btou_go (acc * 10 + (c - 48)) rest
      else none
    else none

/-- `btoi::btou::<u8>`: parse an ASCII decimal into 0–255; empty input fails. -/
def btou (s : List Byte) : Option Nat :=
  match s with
  | [] => none
  | _ :: _ => btou_go 0 s

/-- `Clock::from_ascii` (types.rs:48).  `&s[0..7]` and `&s[12..13]` are
Rust slice-indexing expressions, which panic (`none`) when the input is
shorter than the range demands; when the 7-byte prefix matches, the code
parses only the single byte `s[12..13]`. -/
def clock_from_ascii (s : List Byte) : Option (Except Unit Nat) :=
  if 7 ≤ s.length then
    if s.take 7 = asciiBytes " [%clk " then
      if 13 ≤ s.length then
        some (match btou ((s.drop 12).take 1) with
          | some n => .ok n
          | none => .error ())
      else none
    else some (.error ())
  else none

/-- `Nag::from_ascii` (types.rs:126): the six glyph constants, then the
`$<digits>` branch guarded by `s.len() > 1 && s[0] == b'$'`. -/
def nag_from_ascii (s : List Byte) : Except Unit Nat :=
  if s = asciiBytes "?!" then .ok 6
  else if s = asciiBytes "?" then .ok 2
  else if s = asciiBytes "??" then .ok 4
  else if s = asciiBytes "!" then .ok 1
  else if s = asciiBytes "!!" then .ok 3
  else if s = asciiBytes "!?" then .ok 5
  else if 1 < s.length ∧ s.getD 0 0 = 36 then
    match btou (s.drop 1) with
    | some n => .ok n
    | none => .error ()
  else .error ()

/-- `memchr::memchr_iter(b'\\', ..)`: the increasing list of positions of
backslash bytes. -/
def backslash_positions : List Byte → List Nat
  | [] => []
  | c :: rest =>
    (if c = 92 then [0] else []) ++ (backslash_positions rest).map (· + 1)

/-- The `for escape in memchr_iter(..)` loop of `RawHeader::decode`
(types.rs:232–240), threading the `(head, decoded)` pair through the
escape positions. -/
def decode_go (s : List Byte) : Nat × List Byte → List Nat → Nat × List Byte
  | hd, [] => hd
  | (head, decoded), esc :: rest =>
    match s[esc + 1]? with
    | some ch =>
      if ch = 92 ∨ ch = 34 then
        decode_go s (esc + 1, decoded ++ ((s.drop head).take (esc - head))) rest
      else decode_go s (head, decoded) rest
    | none => decode_go s (head, decoded) rest

/-- `RawHeader::decode` (types.rs:229): resolve `\\` and `\"` escapes;
a final `head = 0` means no escape fired and the borrowed span is
returned unchanged, otherwise the decoded bytes plus the tail from
`head`. -/
def rawheader_decode (s : List Byte) : List Byte :=
  let r := decode_go s (0, []) (backslash_positions s)
  if r.1 = 0 then s else r.2 ++ s.drop r.1

/-! ### Trace lemmas: which events each engine function can append

The scanning primitives and all `skip_*` functions never emit an event;
`read_headers` emits only `header` events; `read_game` adds
`begin game` / `begin headers` / `end headers` / `end game`.  In
particular no run of `read_game` — with any adapter, visitor and fuel —
ever emits a `san`, `nag`, `comment`, `begin variation` or
`end variation` callback. -/

/-- The movetext-level callbacks named by the skip-semantics claims. -/
def isMovetextEv : Ev → Bool
  | .sanEv _ => true
  | .nagEv _ => true
  | .commentEv _ => true
  | .beginVariationEv => true
  | .endVariationEv => true
  | _ => false

def isHeaderishEv : Ev → Bool
  | .beginGame => true
  | .beginHeaders => true
  | .header _ _ => true
  | .endHeaders _ => true
  | .endGame => true
  | _ => false

/-- Only `header` events. -/
def isHeaderRecEv : Ev → Bool
  | .header _ _ => true
  | _ => false

/-- Only `san` (move) callbacks. -/
def isSanEv : Ev → Bool
  | .sanEv _ => true
  | _ => false

/-- `t₁` extends `t₀` by events all satisfying `p`. -/
def extBy (p : Ev → Bool) (t₀ t₁ : List Ev) : Prop :=
  ∃ exl, t₁ = t₀ ++ exl ∧ exl.all p

/-! ### Reference descriptions and inputs used by the claims -/

/-- An ASCII decimal digit. -/
def isDigitByte (c : Byte) : Bool := decide (48 ≤ c) && decide (c ≤ 57)

/-- The number denoted by a digit string, accumulated from `acc`. -/
def digitsVal : Nat → List Byte → Nat
  | acc, [] => acc
  | acc, c :: rest => digitsVal (acc * 10 + (c - 48)) rest

/-- The decimal-digit bytes of `n`. -/
def natDigits (n : Nat) : List Byte := (Nat.toDigits 10 n).map Char.toNat

/-- The NAG grammar as the specification words it: the six glyphs map to
codes 1–6, a `$` followed by at least one byte that is all digits
denoting a value of at most 255 maps to that value, anything else is
invalid. -/
def nag_spec (s : List Byte) : Option Nat :=
  if s = asciiBytes "!" then some 1
  else if s = asciiBytes "?" then some 2
  else if s = asciiBytes "!!" then some 3
  else if s = asciiBytes "??" then some 4
  else if s = asciiBytes "!?" then some 5
  else if s = asciiBytes "?!" then some 6
  else if 1 < s.length ∧ s.getD 0 0 = 36 then
    if (s.drop 1).all isDigitByte ∧ digitsVal 0 (s.drop 1) ≤ 255 then
      some (digitsVal 0 (s.drop 1))
    else none
  else none

/-- Whether the value contains an escape sequence: a backslash whose next
byte is a backslash or a quote. -/
def hasEscapePair : List Byte → Bool
  | [] => false
  | c :: rest =>
    (if c = 92 ∧ (rest.getD 0 0 = 92 ∨ rest.getD 0 0 = 34) then true else false) ||
      hasEscapePair rest

/-- The bytes a source delivers, in order (error events deliver none). -/
def contentOf (src : List RdEvt) : List Byte :=
  src.foldr (fun e acc => match e with | .chunk c => c ++ acc | .ioError => acc) []

/-- The movetext of the variation-nesting claim, preceded by one header. -/
def c1_input : List Byte := asciiBytes "[A \"b\"]\n\ne4 (d4 (Nf3) Nf6) e5\n\n"

/-- The clock doc-test input `" [%clk 0:01:00] "`. -/
def clk_input : List Byte := asciiBytes " [%clk 0:01:00] "

/-- Two consecutive games, used for the skip-then-read-next check. -/
def c7_input : List Byte := asciiBytes "[A \"1\"]\n\ne4 e5\n\n[B \"2\"]\n\nd4\n\n"

/-- A header block whose first record has no closing quote (the value is
cut by the newline), followed by a valid record, then the end of the
block. -/
def c8_block_a : List Byte := asciiBytes "[A \"u\n[B \"v\"]\nX"

/-- A header block whose first record has a newline before any quote,
followed by a valid record, then the end of the block. -/
def c8_block_b : List Byte := asciiBytes "[NoQ\n[C \"x\"]\nX"

/-- A source for the slice/incremental divergence: the first read delivers
only `"[A "`, then zero-length reads make each `fill_buffer` call return
with the truncated window while `read_headers` scans it, then the rest
arrives. -/
def c2_source : List RdEvt :=
  [.chunk (asciiBytes "[A "), .chunk [], .chunk [], .chunk [], .chunk [],
   .chunk (asciiBytes "\"b\"]\n\n")]

def c2_content : List Byte := asciiBytes "[A \"b\"]\n\n"

/-- A source whose I/O error is delivered exactly during the `%`-comment
line skip at the end of the header record (inside `skip_ket`): the header
record is followed by `%x` with no newline, and zero-length reads position
the failing read at `skip_line`'s `fill_buffer`. -/
def c5_source : List RdEvt :=
  [.chunk (asciiBytes "[A \"b\"]%x"), .chunk [], .chunk [], .chunk [],
   .chunk [], .chunk [], .ioError]

theorem extBy_of_eq (p : Ev → Bool) {t₀ t₁ : List Ev} (h : t₁ = t₀) : extBy p t₀ t₁ :=
  ⟨[], by simp [h]⟩

theorem extBy_append (p : Ev → Bool) (t₀ l : List Ev) (hl : l.all p) :
    extBy p t₀ (t₀ ++ l) := ⟨l, rfl, hl⟩

theorem extBy_trans {p : Ev → Bool} {t₀ t₁ t₂ : List Ev} :
    extBy p t₀ t₁ → extBy p t₁ t₂ → extBy p t₀ t₂ := by
  rintro ⟨a, rfl, ha⟩ ⟨b, rfl, hb⟩
  exact ⟨a ++ b, by simp, by simp_all⟩

theorem extBy_mono {p q : Ev → Bool} (hpq : ∀ e, p e = true → q e = true)
    {t₀ t₁ : List Ev} : extBy p t₀ t₁ → extBy q t₀ t₁ := by
  rintro ⟨a, rfl, ha⟩
  exact ⟨a, rfl, by
    simp only [List.all_eq_true] at ha ⊢
    exact fun e he => hpq e (ha e he)⟩

section TraceLemmas

variable {σ ε : Type} (A : Adapter σ ε)

theorem fillM_trace : ∀ st ex s t, fillM A st = some (ex, s, t) → t = st.2 := by
  intro st ex s t h
  unfold fillM at h
  split at h <;> (cases h; rfl)

theorem trace_skip_bom : ∀ st ex s t, skip_bom A st = some (ex, s, t) → t = st.2 := by
  intro st ex s t h
  unfold skip_bom at h
  repeat' split at h
  all_goals (cases h <;> exact fillM_trace A st _ _ _ (by assumption))

theorem trace_skip_until (n : Byte) :
    ∀ fuel st ex s t, skip_until A n fuel st = some (ex, s, t) → t = st.2 := by
  intro fuel
  induction fuel with
  | zero => intro st ex s t h; exact Option.noConfusion h
  | succ f ih =>
    intro st ex s t h
    unfold skip_until at h
    repeat' split at h
    all_goals try (cases h)
    all_goals first
      | (have h1 := fillM_trace A st _ _ _ (by assumption); exact h1)
      | (have h1 := ih _ _ _ _ h
         have h2 := fillM_trace A st _ _ _ (by assumption)
         exact h1.trans h2)

theorem trace_skip_line :
    ∀ fuel st ex s t, skip_line A fuel st = some (ex, s, t) → t = st.2 := by
  intro fuel st ex s t h
  unfold skip_line at h
  repeat' split at h
  all_goals try (cases h)
  all_goals (have h1 := trace_skip_until A 10 fuel st _ _ _ (by assumption); exact h1)

theorem trace_skip_whitespace_inner :
    ∀ fuel st ex s t, skip_whitespace_inner A fuel st = some (ex, s, t) → t = st.2 := by
  intro fuel
  induction fuel with
  | zero => intro st ex s t h; exact Option.noConfusion h
  | succ f ih =>
    intro st ex s t h
    unfold skip_whitespace_inner at h
    repeat' split at h
    all_goals try (cases h)
    all_goals first
      | rfl
      | (have h1 := ih _ _ _ _ h; exact h1)
      | (have h1 := trace_skip_line A f _ _ _ _ (by assumption); exact h1)
      | (have h1 := ih _ _ _ _ h
         have h2 := trace_skip_line A f _ _ _ _ (by assumption)
         exact h1.trans h2)

theorem trace_skip_whitespace :
    ∀ fuel st ex s t, skip_whitespace A fuel st = some (ex, s, t) → t = st.2 := by
  intro fuel
  induction fuel with
  | zero => intro st ex s t h; exact Option.noConfusion h
  | succ f ih =>
    intro st ex s t h
    unfold skip_whitespace at h
    repeat' split at h
    all_goals try (cases h)
    all_goals first
      | (have h1 := fillM_trace A st _ _ _ (by assumption); exact h1)
      | (have h1 := trace_skip_whitespace_inner A f _ _ _ _ (by assumption)
         have h2 := fillM_trace A st _ _ _ (by assumption)
         exact h1.trans h2)
      | (have h1 := ih _ _ _ _ h
         have h2 := trace_skip_whitespace_inner A f _ _ _ _ (by assumption)
         have h3 := fillM_trace A st _ _ _ (by assumption)
         exact (h1.trans h2).trans h3)

theorem trace_skip_ket_inner :
    ∀ fuel st ex s t, skip_ket_inner A fuel st = some (ex, s, t) → t = st.2 := by
  intro fuel
  induction fuel with
  | zero => intro st ex s t h; exact Option.noConfusion h
  | succ f ih =>
    intro st ex s t h
    unfold skip_ket_inner at h
    repeat' split at h
    all_goals try (cases h)
    all_goals first
      | rfl
      | (have h1 := ih _ _ _ _ h; exact h1)
      | (have h1 := trace_skip_line A f _ _ _ _ (by assumption); exact h1)

theorem trace_skip_ket :
    ∀ fuel st ex s t, skip_ket A fuel st = some (ex, s, t) → t = st.2 := by
  intro fuel
  induction fuel with
  | zero => intro st ex s t h; exact Option.noConfusion h
  | succ f ih =>
    intro st ex s t h
    unfold skip_ket at h
    repeat' split at h
    all_goals try (cases h)
    all_goals first
      | (have h1 := fillM_trace A st _ _ _ (by assumption); exact h1)
      | (have h1 := trace_skip_ket_inner A f _ _ _ _ (by assumption)
         have h2 := fillM_trace A st _ _ _ (by assumption)
         exact h1.trans h2)
      | (have h1 := ih _ _ _ _ h
         have h2 := trace_skip_ket_inner A f _ _ _ _ (by assumption)
         have h3 := fillM_trace A st _ _ _ (by assumption)
         exact (h1.trans h2).trans h3)

theorem trace_skip_movetext :
    ∀ fuel st ex s t, skip_movetext A fuel st = some (ex, s, t) → t = st.2 := by
  intro fuel
  induction fuel with
  | zero => intro st ex s t h; exact Option.noConfusion h
  | succ f ih =>
    intro st ex s t h
    unfold skip_movetext at h
    repeat' first | split at h | dsimp only at h
    all_goals try (cases h)
    all_goals first
      | (have h1 := fillM_trace A st _ _ _ (by assumption); exact h1)
      | (have h1 := ih _ _ _ _ h
         have h2 := fillM_trace A st _ _ _ (by assumption)
         exact h1.trans h2)
      | (have h1 := trace_skip_until A _ f _ _ _ _ (by assumption)
         have h2 := fillM_trace A st _ _ _ (by assumption)
         exact h1.trans h2)
      | (have h1 := ih _ _ _ _ h
         have h2 := trace_skip_until A _ f _ _ _ _ (by assumption)
         have h3 := fillM_trace A st _ _ _ (by assumption)
         exact (h1.trans h2).trans h3)

/-- `read_headers` only ever appends `header` events to the trace. -/
theorem trace_read_headers :
    ∀ fuel st ex s t, read_headers A fuel st = some (ex, s, t) →
      extBy isHeaderRecEv st.2 t := by
  intro fuel
  induction fuel with
  | zero => intro st ex s t h; exact Option.noConfusion h
  | succ f ih =>
    intro st ex s t h
    unfold read_headers at h
    repeat' first | split at h | dsimp only at h
    all_goals try (cases h)
    all_goals first
      | (have hf := fillM_trace A st _ _ _ (by assumption)
         exact extBy_of_eq _ hf)
      | (have hk := trace_skip_ket A f _ _ _ _ (by assumption)
         have hf := fillM_trace A st _ _ _ (by assumption)
         dsimp only at hk
         rw [hf] at hk
         rw [hk]
         exact extBy_append _ _ _ (by simp [isHeaderRecEv]))
      | (have h1 := ih _ _ _ _ h
         have hk := trace_skip_ket A f _ _ _ _ (by assumption)
         have hf := fillM_trace A st _ _ _ (by assumption)
         dsimp only at h1 hk
         rw [hf] at hk
         rw [hk] at h1
         exact extBy_trans (extBy_append _ _ _ (by simp [isHeaderRecEv])) h1)
      | (have h1 := ih _ _ _ _ h
         have hf := fillM_trace A st _ _ _ (by assumption)
         dsimp only at h1
         rw [hf] at h1
         exact extBy_trans (extBy_append _ _ _ (by simp [isHeaderRecEv])) h1)
      | (have hl := trace_skip_line A f _ _ _ _ (by assumption)
         have hf := fillM_trace A st _ _ _ (by assumption)
         dsimp only at hl
         exact extBy_of_eq _ (hl.trans hf))
      | (have h1 := ih _ _ _ _ h
         have hl := trace_skip_line A f _ _ _ _ (by assumption)
         have hf := fillM_trace A st _ _ _ (by assumption)
         dsimp only at h1 hl
         rw [hl, hf] at h1
         exact h1)
      | (have h1 := ih _ _ _ _ h
         have hf := fillM_trace A st _ _ _ (by assumption)
         dsimp only at h1
         rw [hf] at h1
         exact h1)

/-- Events of a whole `read_game` run: only `begin game`, `begin headers`,
`header`, `end headers` and `end game` are ever appended — the reader
never invokes a `san`, `nag`, `comment`, `begin variation` or
`end variation` callback, whatever the adapter, visitor and fuel. -/
theorem trace_read_game (V : Visitor) (fuel : Nat) :
    ∀ st ex s t, read_game A V fuel st = some (ex, s, t) →
      extBy isHeaderishEv st.2 t := by
  intro st ex s t h
  unfold read_game at h
  rcases hb : skip_bom A st with _ | ⟨eb | ub, sb, tb⟩ <;> rw [hb] at h
  · exact Option.noConfusion h
  · dsimp only at h; cases h
    exact extBy_of_eq _ (trace_skip_bom A st _ _ _ hb)
  · dsimp only at h
    have htb : tb = st.2 := trace_skip_bom A st _ _ _ hb
    rcases hw : skip_whitespace A fuel (sb, tb) with _ | ⟨ew | uw, sw, tw⟩ <;>
      rw [hw] at h
    · exact Option.noConfusion h
    · dsimp only at h; cases h
      exact extBy_of_eq _ ((trace_skip_whitespace A fuel _ _ _ _ hw).trans htb)
    · dsimp only at h
      have htw : tw = st.2 := (trace_skip_whitespace A fuel _ _ _ _ hw).trans htb
      rcases hf : fillM A (sw, tw) with _ | ⟨ef | bf, sf, tf⟩ <;> rw [hf] at h
      · exact Option.noConfusion h
      · dsimp only at h; cases h
        exact extBy_of_eq _ ((fillM_trace A _ _ _ _ hf).trans htw)
      · dsimp only at h
        have htf : tf = st.2 := (fillM_trace A _ _ _ _ hf).trans htw
        split at h
        · cases h
          exact extBy_of_eq _ htf
        · simp only [ite_self] at h
          have hbase : extBy isHeaderishEv st.2 (tf ++ [Ev.beginGame, Ev.beginHeaders]) := by
            rw [htf] at *
            exact extBy_append _ _ _ (by simp [isHeaderishEv])
          rcases hrh : read_headers A fuel (sf, tf ++ [Ev.beginGame, Ev.beginHeaders]) with
            _ | ⟨eh | uh, sh, th⟩ <;> rw [hrh] at h
          · exact Option.noConfusion h
          · dsimp only at h; cases h
            exact extBy_trans hbase
              (extBy_mono (by intro e he; cases e <;> simp_all [isHeaderRecEv, isHeaderishEv])
                (trace_read_headers A fuel _ _ _ _ hrh))
          · dsimp only at h
            have hth : extBy isHeaderishEv st.2 th :=
              extBy_trans hbase
                (extBy_mono (by intro e he; cases e <;> simp_all [isHeaderRecEv, isHeaderishEv])
                  (trace_read_headers A fuel _ _ _ _ hrh))
            have hth2 : extBy isHeaderishEv st.2
                (th ++ [Ev.endHeaders (V.endHeadersSkip th)]) :=
              extBy_trans hth (extBy_append _ _ _ (by simp [isHeaderishEv]))
            rcases hmv : skip_movetext A fuel
                (sh, th ++ [Ev.endHeaders (V.endHeadersSkip th)]) with
              _ | ⟨em | um, sm, tm⟩ <;> rw [hmv] at h
            · exact Option.noConfusion h
            · dsimp only at h; cases h
              rw [trace_skip_movetext A fuel _ _ _ _ hmv]
              exact hth2
            · dsimp only at h
              have htm : extBy isHeaderishEv st.2 tm := by
                rw [trace_skip_movetext A fuel _ _ _ _ hmv]
                exact hth2
              rcases hw2 : skip_whitespace A fuel (sm, tm) with _ | ⟨ew2 | uw2, sw2, tw2⟩ <;>
                rw [hw2] at h
              · exact Option.noConfusion h
              · dsimp only at h; cases h
                have hx := trace_skip_whitespace A fuel _ _ _ _ hw2
                rw [hx]
                exact htm
              · dsimp only at h; cases h
                have hx := trace_skip_whitespace A fuel _ _ _ _ hw2
                rw [hx]
                exact extBy_trans htm (extBy_append _ _ _ (by simp [isHeaderishEv]))

end TraceLemmas

/-! ### Support lemmas for the claims -/

theorem headerish_no_movetext {t : List Ev} (h : t.all isHeaderishEv) :
    t.countP isMovetextEv = 0 := by
  rw [List.countP_eq_zero]
  intro e he
  have := (List.all_eq_true.mp h) e he
  cases e <;> simp_all [isHeaderishEv, isMovetextEv]

/-- Any `read_game` run over the slice adapter emits no movetext-level
callback, whatever the visitor and fuel. -/
theorem slice_read_game_no_movetext (bytes : List Byte) (V : Visitor) (fuel : Nat) :
    (traceOf (slice_read_game bytes V fuel)).countP isMovetextEv = 0 := by
  rcases hr : slice_read_game bytes V fuel with _ | ⟨ex, s, t⟩
  · simp [traceOf]
  · have := trace_read_game sliceAdapter V fuel _ _ _ _ hr
    rcases this with ⟨exl, hex, hall⟩
    simp only [traceOf]
    simp only [List.nil_append] at hex
    rw [hex]
    exact headerish_no_movetext hall

/-! ### No-panic lemmas for the slice adapter (C10) -/


theorem fillM_slice (s : SliceSt) (t : List Ev) :
    fillM sliceAdapter (s, t) =
      some (.ok (decide (s.pos < s.bytes.length)), s, t) := rfl

theorem memchr_some_lt (n : Byte) :
    ∀ (l : List Byte) (i : Nat), memchr n l = some i → i < l.length := by
  intro l
  induction l with
  | nil => intro i h; cases h
  | cons c rest ih =>
    intro i h
    rw [memchr] at h
    split at h
    · cases h; simp
    · simp only [Option.map_eq_some'] at h
      obtain ⟨j, hj, rfl⟩ := h
      have := ih j hj
      simp only [List.length_cons]
      omega

theorem memchr2_some_lt (n₁ n₂ : Byte) :
    ∀ (l : List Byte) (i : Nat), memchr2 n₁ n₂ l = some i → i < l.length := by
  intro l
  induction l with
  | nil => intro i h; cases h
  | cons c rest ih =>
    intro i h
    rw [memchr2] at h
    split at h
    · cases h; simp
    · simp only [Option.map_eq_some'] at h
      obtain ⟨j, hj, rfl⟩ := h
      have := ih j hj
      simp only [List.length_cons]
      omega

theorem memchr3_some_lt (n₁ n₂ n₃ : Byte) :
    ∀ (l : List Byte) (i : Nat), memchr3 n₁ n₂ n₃ l = some i → i < l.length := by
  intro l
  induction l with
  | nil => intro i h; cases h
  | cons c rest ih =>
    intro i h
    rw [memchr3] at h
    split at h
    · cases h; simp
    · simp only [Option.map_eq_some'] at h
      obtain ⟨j, hj, rfl⟩ := h
      have := ih j hj
      simp only [List.length_cons]
      omega

theorem find_right_quote_le (buffer : List Byte) :
    ∀ (fuel rq : Nat), (find_right_quote buffer rq fuel).2 ≤ buffer.length := by
  intro fuel
  induction fuel with
  | zero => intro rq; rw [find_right_quote]
  | succ f ih =>
    intro rq
    rw [find_right_quote]
    cases hm : memchr3 92 34 10 (buffer.drop rq) with
    | none => exact le_rfl
    | some delta =>
      have hlt := memchr3_some_lt 92 34 10 _ _ hm
      rw [List.length_drop] at hlt
      dsimp only
      split
      · dsimp only; omega
      · split
        · dsimp only; omega
        · exact ih _

theorem head?_drop_some_lt {l : List Byte} {n : Nat} {c : Byte}
    (h : (l.drop n).head? = some c) : n < l.length := by
  by_contra hle
  rw [List.drop_eq_nil_of_le (by omega)] at h
  cases h

theorem head?_drop_none_le {l : List Byte} {n : Nat}
    (h : (l.drop n).head? = none) : l.length ≤ n := by
  by_contra hlt
  rw [List.head?_eq_none_iff] at h
  have := congrArg List.length h
  rw [List.length_drop] at this
  simp at this
  omega

theorem slice_peek_eq (s : SliceSt) :
    sliceAdapter.peek s = (s.bytes.drop s.pos).head? := rfl

theorem slice_bump_of_peek_some {s : SliceSt} {c : Byte}
    (h : (s.bytes.drop s.pos).head? = some c) :
    sliceAdapter.bump s = (some c, ⟨s.bytes, s.pos + 1⟩) := by
  simp only [sliceAdapter]
  rw [h]

theorem slice_bump_of_peek_none {s : SliceSt}
    (h : (s.bytes.drop s.pos).head? = none) :
    sliceAdapter.bump s = (none, s) := by
  simp only [sliceAdapter]
  rw [h]

theorem memchr_head (n : Byte) :
    ∀ (l : List Byte) (i : Nat), memchr n l = some i → (l.drop i).head? = some n := by
  intro l
  induction l with
  | nil => intro i h; cases h
  | cons c rest ih =>
    intro i h
    rw [memchr] at h
    split at h
    · cases h
      simp only [List.drop_zero, List.head?_cons]
      simp [*]
    · simp only [Option.map_eq_some'] at h
      obtain ⟨j, hj, rfl⟩ := h
      simpa using ih j hj

theorem slice_skip_until_ok (n : Byte) :
    ∀ (fuel : Nat) (s : SliceSt) (t : List Ev),
      s.pos ≤ s.bytes.length → s.bytes.length - s.pos < fuel →
      ∃ s', skip_until sliceAdapter n fuel (s, t) = some (.ok (), s', t) ∧
        s'.bytes = s.bytes ∧ s.pos ≤ s'.pos ∧ s'.pos ≤ s.bytes.length ∧
        (s.pos < s.bytes.length →
          s.pos < s'.pos ∨ (s.bytes.drop s'.pos).head? = some n) := by
  intro fuel
  induction fuel with
  | zero => intro s t _ hf; omega
  | succ f ih =>
    intro s t hpos hf
    simp only [skip_until]
    rw [fillM_slice]
    by_cases hb : s.pos < s.bytes.length
    · rw [decide_eq_true hb]
      dsimp only
      rw [if_pos rfl]
      cases hm : memchr n (sliceAdapter.buf s) with
      | some i =>
        dsimp only
        have hlt := memchr_some_lt n _ _ hm
        have hbuf : (sliceAdapter.buf s).length = s.bytes.length - s.pos := by
          simp [sliceAdapter]
        have hlt' : i < s.bytes.length - s.pos := by rw [hbuf] at hlt; exact hlt
        have hcons : sliceAdapter.consume s i = some ⟨s.bytes, s.pos + i⟩ := by
          simp only [sliceAdapter]
          rw [if_pos (by omega)]
        rw [hcons]
        refine ⟨⟨s.bytes, s.pos + i⟩, rfl, rfl, ?_, ?_, ?_⟩
        · show s.pos ≤ s.pos + i
          omega
        · show s.pos + i ≤ s.bytes.length
          omega
        · intro _
          right
          have hh := memchr_head n _ _ hm
          have hds : sliceAdapter.buf s = s.bytes.drop s.pos := rfl
          rw [hds, List.drop_drop] at hh
          show (s.bytes.drop (s.pos + i)).head? = some n
          exact hh
      | none =>
        dsimp only
        have hca : sliceAdapter.consumeAll s =
            ⟨s.bytes, s.pos + (s.bytes.length - s.pos)⟩ := rfl
        rw [hca]
        obtain ⟨s', hrun, hby, hge, hle, _⟩ :=
          ih ⟨s.bytes, s.pos + (s.bytes.length - s.pos)⟩ t (by simp; omega) (by simp; omega)
        refine ⟨s', hrun, by simpa using hby, by simp at hge ⊢; omega, by simpa using hle, ?_⟩
        intro _
        left
        simp only at hge
        have hle' : s'.pos ≤ s.bytes.length := by simpa using hle
        omega
    · rw [decide_eq_false hb]
      dsimp only
      rw [if_neg (by simp)]
      exact ⟨s, rfl, rfl, le_refl _, hpos, fun hlt => absurd hlt hb⟩

theorem slice_skip_line_ok :
    ∀ (fuel : Nat) (s : SliceSt) (t : List Ev),
      s.pos ≤ s.bytes.length → s.bytes.length - s.pos < fuel →
      ∃ s', skip_line sliceAdapter fuel (s, t) = some (.ok (), s', t) ∧
        s'.bytes = s.bytes ∧ s.pos ≤ s'.pos ∧ s'.pos ≤ s.bytes.length ∧
        (s.pos < s.bytes.length → s.pos < s'.pos) := by
  intro fuel s t hpos hf
  obtain ⟨s₁, hrun, hby, hge, hle, hprog⟩ := slice_skip_until_ok 10 fuel s t hpos hf
  simp only [skip_line]
  rw [hrun]
  dsimp only
  cases hh : (s₁.bytes.drop s₁.pos).head? with
  | some c =>
    rw [slice_bump_of_peek_some hh]
    have hlt := head?_drop_some_lt hh
    refine ⟨⟨s₁.bytes, s₁.pos + 1⟩, rfl, by rw [← hby], ?_, ?_, ?_⟩
    · show s.pos ≤ s₁.pos + 1
      omega
    · show s₁.pos + 1 ≤ s.bytes.length
      rw [← hby]
      omega
    · intro _
      show s.pos < s₁.pos + 1
      omega
  | none =>
    rw [slice_bump_of_peek_none hh]
    refine ⟨s₁, rfl, hby, hge, hle, ?_⟩
    intro hlt
    rcases hprog hlt with h | h
    · exact h
    · rw [← hby] at h
      rw [h] at hh
      cases hh

theorem slice_skip_whitespace_inner_ok :
    ∀ (fuel : Nat) (s : SliceSt) (t : List Ev),
      s.pos ≤ s.bytes.length → s.bytes.length - s.pos < fuel →
      ∃ r s', skip_whitespace_inner sliceAdapter fuel (s, t) = some (.ok r, s', t) ∧
        s'.bytes = s.bytes ∧ s.pos ≤ s'.pos ∧ s'.pos ≤ s.bytes.length ∧
        (r = false → s'.pos = s.bytes.length) := by
  intro fuel
  induction fuel with
  | zero => intro s t _ hf; omega
  | succ f ih =>
    intro s t hpos hf
    simp only [skip_whitespace_inner]
    cases hh : (s.bytes.drop s.pos).head? with
    | none =>
      rw [show sliceAdapter.peek (s, t).1 = none from hh]
      have hle := head?_drop_none_le hh
      exact ⟨false, s, rfl, rfl, le_rfl, hpos, fun _ => by omega⟩
    | some ch =>
      rw [show sliceAdapter.peek (s, t).1 = some ch from hh]
      have hlt := head?_drop_some_lt hh
      dsimp only
      by_cases hw : ch = 32 ∨ ch = 9 ∨ ch = 13 ∨ ch = 10
      · rw [if_pos hw, show (sliceAdapter.bump (s, t).1).2 = (⟨s.bytes, s.pos + 1⟩ : SliceSt)
          from by rw [show sliceAdapter.bump (s, t).1 = (some ch, ⟨s.bytes, s.pos + 1⟩)
            from slice_bump_of_peek_some hh]]
        obtain ⟨r, s', hrun, hby, hge, hle, hfal⟩ :=
          ih ⟨s.bytes, s.pos + 1⟩ t (by show s.pos + 1 ≤ s.bytes.length; omega)
            (by show s.bytes.length - (s.pos + 1) < f; omega)
        have hby' : s'.bytes = s.bytes := hby
        have hge' : s.pos + 1 ≤ s'.pos := hge
        have hle' : s'.pos ≤ s.bytes.length := hle
        have hfal' : r = false → s'.pos = s.bytes.length := hfal
        exact ⟨r, s', hrun, hby', by omega, hle', hfal'⟩
      · rw [if_neg hw]
        by_cases hp : ch = 37
        · rw [if_pos hp, show (sliceAdapter.bump (s, t).1).2 = (⟨s.bytes, s.pos + 1⟩ : SliceSt)
            from by rw [show sliceAdapter.bump (s, t).1 = (some ch, ⟨s.bytes, s.pos + 1⟩)
              from slice_bump_of_peek_some hh]]
          obtain ⟨s₁, hlrun, hlby, hlge, hlle, _⟩ :=
            slice_skip_line_ok f ⟨s.bytes, s.pos + 1⟩ t
              (by show s.pos + 1 ≤ s.bytes.length; omega)
              (by show s.bytes.length - (s.pos + 1) < f; omega)
          rw [hlrun]
          have hlby' : s₁.bytes = s.bytes := hlby
          have hlge' : s.pos + 1 ≤ s₁.pos := hlge
          have hlle' : s₁.pos ≤ s.bytes.length := hlle
          dsimp only
          obtain ⟨r, s', hrun, hby, hge, hle, hfal⟩ :=
            ih s₁ t (by rw [hlby']; omega) (by rw [hlby']; omega)
          rw [hrun]
          rw [hlby'] at hby hle hfal
          refine ⟨r, s', rfl, hby, by omega, hle, fun hr => hfal hr⟩
        · rw [if_neg hp]
          exact ⟨true, s, rfl, rfl, le_rfl, hpos, fun hr => Bool.noConfusion hr⟩

theorem slice_skip_whitespace_ok :
    ∀ (fuel : Nat) (s : SliceSt) (t : List Ev),
      s.pos ≤ s.bytes.length → s.bytes.length - s.pos + 1 < fuel →
      ∃ s', skip_whitespace sliceAdapter fuel (s, t) = some (.ok (), s', t) ∧
        s'.bytes = s.bytes ∧ s.pos ≤ s'.pos ∧ s'.pos ≤ s.bytes.length := by
  intro fuel
  induction fuel with
  | zero => intro s t _ hf; omega
  | succ f ih =>
    intro s t hpos hf
    simp only [skip_whitespace]
    rw [fillM_slice]
    by_cases hb : s.pos < s.bytes.length
    · rw [decide_eq_true hb]
      dsimp only
      rw [if_pos rfl]
      obtain ⟨r, s₁, hrun, hby, hge, hle, hfal⟩ :=
        slice_skip_whitespace_inner_ok f s t hpos (by omega)
      rw [hrun]
      dsimp only
      cases r with
      | true => exact ⟨s₁, by rw [if_pos rfl], hby, hge, hle⟩
      | false =>
        rw [if_neg (by simp)]
        have hp1 : s₁.pos = s.bytes.length := hfal rfl
        obtain ⟨s', hrun', hby', hge', hle'⟩ :=
          ih s₁ t (by rw [hby]; omega) (by rw [hby]; omega)
        rw [hby] at hby' hle'
        exact ⟨s', hrun', hby', by omega, hle'⟩
    · rw [decide_eq_false hb]
      dsimp only
      rw [if_neg (by simp)]
      exact ⟨s, rfl, rfl, le_rfl, hpos⟩

theorem slice_skip_ket_inner_ok :
    ∀ (fuel : Nat) (s : SliceSt) (t : List Ev),
      s.pos ≤ s.bytes.length → s.bytes.length - s.pos < fuel →
      ∃ r s', skip_ket_inner sliceAdapter fuel (s, t) = some (.ok r, s', t) ∧
        s'.bytes = s.bytes ∧ s.pos ≤ s'.pos ∧ s'.pos ≤ s.bytes.length ∧
        (r = false → s'.pos = s.bytes.length) := by
  intro fuel
  induction fuel with
  | zero => intro s t _ hf; omega
  | succ f ih =>
    intro s t hpos hf
    simp only [skip_ket_inner]
    cases hh : (s.bytes.drop s.pos).head? with
    | none =>
      rw [show sliceAdapter.peek (s, t).1 = none from hh]
      have hle := head?_drop_none_le hh
      exact ⟨false, s, rfl, rfl, le_rfl, hpos, fun _ => by omega⟩
    | some ch =>
      rw [show sliceAdapter.peek (s, t).1 = some ch from hh]
      have hlt := head?_drop_some_lt hh
      dsimp only
      by_cases hw : ch = 32 ∨ ch = 9 ∨ ch = 13 ∨ ch = 93
      · rw [if_pos hw, show (sliceAdapter.bump (s, t).1).2 = (⟨s.bytes, s.pos + 1⟩ : SliceSt)
          from by rw [show sliceAdapter.bump (s, t).1 = (some ch, ⟨s.bytes, s.pos + 1⟩)
            from slice_bump_of_peek_some hh]]
        obtain ⟨r, s', hrun, hby, hge, hle, hfal⟩ :=
          ih ⟨s.bytes, s.pos + 1⟩ t (by show s.pos + 1 ≤ s.bytes.length; omega)
            (by show s.bytes.length - (s.pos + 1) < f; omega)
        have hby' : s'.bytes = s.bytes := hby
        have hge' : s.pos + 1 ≤ s'.pos := hge
        have hle' : s'.pos ≤ s.bytes.length := hle
        have hfal' : r = false → s'.pos = s.bytes.length := hfal
        exact ⟨r, s', hrun, hby', by omega, hle', hfal'⟩
      · rw [if_neg hw]
        by_cases hp : ch = 37
        · rw [if_pos hp, show (sliceAdapter.bump (s, t).1).2 = (⟨s.bytes, s.pos + 1⟩ : SliceSt)
            from by rw [show sliceAdapter.bump (s, t).1 = (some ch, ⟨s.bytes, s.pos + 1⟩)
              from slice_bump_of_peek_some hh]]
          obtain ⟨s₁, hlrun, hlby, hlge, hlle, _⟩ :=
            slice_skip_line_ok f ⟨s.bytes, s.pos + 1⟩ t
              (by show s.pos + 1 ≤ s.bytes.length; omega)
              (by show s.bytes.length - (s.pos + 1) < f; omega)
          rw [hlrun]
          have hlby' : s₁.bytes = s.bytes := hlby
          have hlge' : s.pos + 1 ≤ s₁.pos := hlge
          have hlle' : s₁.pos ≤ s.bytes.length := hlle
          exact ⟨true, s₁, rfl, hlby', by omega, hlle', fun hr => Bool.noConfusion hr⟩
        · rw [if_neg hp]
          by_cases hn : ch = 10
          · rw [if_pos hn, show (sliceAdapter.bump (s, t).1).2 = (⟨s.bytes, s.pos + 1⟩ : SliceSt)
              from by rw [show sliceAdapter.bump (s, t).1 = (some ch, ⟨s.bytes, s.pos + 1⟩)
                from slice_bump_of_peek_some hh]]
            exact ⟨true, ⟨s.bytes, s.pos + 1⟩, rfl, rfl,
              by show s.pos ≤ s.pos + 1; omega,
              by show s.pos + 1 ≤ s.bytes.length; omega,
              fun hr => Bool.noConfusion hr⟩
          · rw [if_neg hn]
            exact ⟨true, s, rfl, rfl, le_rfl, hpos, fun hr => Bool.noConfusion hr⟩

theorem slice_skip_ket_ok :
    ∀ (fuel : Nat) (s : SliceSt) (t : List Ev),
      s.pos ≤ s.bytes.length → s.bytes.length - s.pos + 1 < fuel →
      ∃ s', skip_ket sliceAdapter fuel (s, t) = some (.ok (), s', t) ∧
        s'.bytes = s.bytes ∧ s.pos ≤ s'.pos ∧ s'.pos ≤ s.bytes.length := by
  intro fuel
  induction fuel with
  | zero => intro s t _ hf; omega
  | succ f ih =>
    intro s t hpos hf
    simp only [skip_ket]
    rw [fillM_slice]
    by_cases hb : s.pos < s.bytes.length
    · rw [decide_eq_true hb]
      dsimp only
      rw [if_pos rfl]
      obtain ⟨r, s₁, hrun, hby, hge, hle, hfal⟩ :=
        slice_skip_ket_inner_ok f s t hpos (by omega)
      rw [hrun]
      dsimp only
      cases r with
      | true => exact ⟨s₁, by rw [if_pos rfl], hby, hge, hle⟩
      | false =>
        rw [if_neg (by simp)]
        have hp1 : s₁.pos = s.bytes.length := hfal rfl
        obtain ⟨s', hrun', hby', hge', hle'⟩ :=
          ih s₁ t (by rw [hby]; omega) (by rw [hby]; omega)
        rw [hby] at hby' hle'
        exact ⟨s', hrun', hby', by omega, hle'⟩
    · rw [decide_eq_false hb]
      dsimp only
      rw [if_neg (by simp)]
      exact ⟨s, rfl, rfl, le_rfl, hpos⟩

theorem slice_skip_bom_ok (s : SliceSt) (t : List Ev) (hpos : s.pos ≤ s.bytes.length) :
    ∃ s', skip_bom sliceAdapter (s, t) = some (.ok (), s', t) ∧
      s'.bytes = s.bytes ∧ s.pos ≤ s'.pos ∧ s'.pos ≤ s.bytes.length := by
  simp only [skip_bom]
  rw [fillM_slice]
  dsimp only
  by_cases hc : decide (s.pos < s.bytes.length) = true ∧
      List.isPrefixOf [0xEF, 0xBB, 0xBF] (sliceAdapter.buf s) = true
  · rw [if_pos hc]
    have hlen : 3 ≤ (sliceAdapter.buf s).length := by
      have := (List.isPrefixOf_iff_prefix.mp hc.2).length_le
      simpa using this
    have hbuf : (sliceAdapter.buf s).length = s.bytes.length - s.pos := by
      simp [sliceAdapter]
    have hcons : sliceAdapter.consume s 3 = some ⟨s.bytes, s.pos + 3⟩ := by
      simp only [sliceAdapter]
      rw [if_pos (by omega)]
    rw [hcons]
    exact ⟨⟨s.bytes, s.pos + 3⟩, rfl, rfl,
      by show s.pos ≤ s.pos + 3; omega,
      by show s.pos + 3 ≤ s.bytes.length; omega⟩
  · rw [if_neg hc]
    exact ⟨s, rfl, rfl, le_rfl, hpos⟩

theorem slice_read_headers_ok :
    ∀ (fuel : Nat) (s : SliceSt) (t : List Ev),
      s.pos ≤ s.bytes.length → s.bytes.length - s.pos + 1 < fuel →
      ∃ s' t', read_headers sliceAdapter fuel (s, t) = some (.ok (), s', t') ∧
        s'.bytes = s.bytes ∧ s.pos ≤ s'.pos ∧ s'.pos ≤ s.bytes.length := by
  intro fuel
  induction fuel with
  | zero => intro s t _ hf; omega
  | succ f ih =>
    intro s t hpos hf
    simp only [read_headers]
    rw [fillM_slice]
    by_cases hb : s.pos < s.bytes.length
    · rw [decide_eq_true hb]
      dsimp only
      rw [if_pos rfl]
      cases hh : (s.bytes.drop s.pos).head? with
      | none => exact absurd (head?_drop_none_le hh) (by omega)
      | some ch =>
        rw [show sliceAdapter.peek s = some ch from hh]
        dsimp only
        by_cases hch91 : ch = 91
        · rw [if_pos hch91,
            show sliceAdapter.bump s = (some ch, ⟨s.bytes, s.pos + 1⟩)
              from slice_bump_of_peek_some hh]
          dsimp only
          have hbuf : sliceAdapter.buf (⟨s.bytes, s.pos + 1⟩ : SliceSt) =
              s.bytes.drop (s.pos + 1) := rfl
          rw [hbuf]
          cases hm : memchr2 34 10 (s.bytes.drop (s.pos + 1)) with
          | some i =>
            dsimp only
            have hilt : i < s.bytes.length - (s.pos + 1) := by
              have := memchr2_some_lt 34 10 _ _ hm
              rwa [List.length_drop] at this
            by_cases hq : (s.bytes.drop (s.pos + 1)).getD i 0 = 34
            · rw [if_pos hq]
              have hfq := find_right_quote_le (s.bytes.drop (s.pos + 1))
                ((s.bytes.drop (s.pos + 1)).length + 1) (i + 1)
              rw [List.length_drop] at hfq
              have hcons : sliceAdapter.consume ⟨s.bytes, s.pos + 1⟩
                  (find_right_quote (s.bytes.drop (s.pos + 1)) (i + 1)
                    ((s.bytes.drop (s.pos + 1)).length + 1)).2 =
                  some ⟨s.bytes, s.pos + 1 + (find_right_quote (s.bytes.drop (s.pos + 1))
                    (i + 1) ((s.bytes.drop (s.pos + 1)).length + 1)).2⟩ := by
                simp only [sliceAdapter, List.length_drop]
                rw [if_pos (by omega)]
              rw [List.length_drop] at hcons ⊢
              rw [hcons]
              dsimp only
              obtain ⟨s₂, hkrun, hkby, hkge, hkle⟩ :=
                slice_skip_ket_ok f ⟨s.bytes, s.pos + 1 + (find_right_quote
                    (s.bytes.drop (s.pos + 1)) (i + 1) (s.bytes.length - (s.pos + 1) + 1)).2⟩
                  (t ++ [.header ((s.bytes.drop (s.pos + 1)).take
                      (if 0 < i ∧ (s.bytes.drop (s.pos + 1)).getD (i - 1) 0 = 32 then i - 1
                       else i))
                    (((s.bytes.drop (s.pos + 1)).drop (i + 1)).take
                      ((find_right_quote (s.bytes.drop (s.pos + 1)) (i + 1)
                        (s.bytes.length - (s.pos + 1) + 1)).1 - (i + 1)))])
                  (by show s.pos + 1 + _ ≤ s.bytes.length; omega)
                  (by show s.bytes.length - (s.pos + 1 + _) + 1 < f; omega)
              rw [hkrun]
              dsimp only
              have hkge' : s.pos + 1 + (find_right_quote (s.bytes.drop (s.pos + 1)) (i + 1)
                  (s.bytes.length - (s.pos + 1) + 1)).2 ≤ s₂.pos := hkge
              have hkby' : s₂.bytes = s.bytes := hkby
              obtain ⟨s', t', hrun, hby, hge, hle⟩ :=
                ih s₂ _ (by rw [hkby']; exact hkle) (by rw [hkby']; omega)
              rw [hrun]
              rw [hkby'] at hby hle
              exact ⟨s', t', rfl, hby, by omega, hle⟩
            · rw [if_neg hq]
              have hcons : sliceAdapter.consume ⟨s.bytes, s.pos + 1⟩ (i + 1) =
                  some ⟨s.bytes, s.pos + 1 + (i + 1)⟩ := by
                simp only [sliceAdapter]
                rw [if_pos (by omega)]
              rw [hcons]
              dsimp only
              obtain ⟨s', t', hrun, hby, hge, hle⟩ :=
                ih ⟨s.bytes, s.pos + 1 + (i + 1)⟩ _
                  (by show s.pos + 1 + (i + 1) ≤ s.bytes.length; omega)
                  (by show s.bytes.length - (s.pos + 1 + (i + 1)) + 1 < f; omega)
              rw [hrun]
              have hby' : s'.bytes = s.bytes := hby
              have hge' : s.pos + 1 + (i + 1) ≤ s'.pos := hge
              have hle' : s'.pos ≤ s.bytes.length := hle
              exact ⟨s', t', rfl, hby', by omega, hle'⟩
          | none =>
            dsimp only
            obtain ⟨s₁, hlrun, hlby, hlge, hlle, _⟩ :=
              slice_skip_line_ok f ⟨s.bytes, s.pos + 1⟩ t
                (by show s.pos + 1 ≤ s.bytes.length; omega)
                (by show s.bytes.length - (s.pos + 1) < f; omega)
            rw [hlrun]
            dsimp only
            have hlby' : s₁.bytes = s.bytes := hlby
            have hlge' : s.pos + 1 ≤ s₁.pos := hlge
            have hlle' : s₁.pos ≤ s.bytes.length := hlle
            obtain ⟨s', t', hrun, hby, hge, hle⟩ :=
              ih s₁ t (by rw [hlby']; exact hlle') (by rw [hlby']; omega)
            rw [hrun]
            rw [hlby'] at hby hle
            exact ⟨s', t', rfl, hby, by omega, hle⟩
        · by_cases hch37 : ch = 37
          · rw [if_neg hch91, if_pos hch37]
            obtain ⟨s₁, hlrun, hlby, hlge, hlle, hlprog⟩ :=
              slice_skip_line_ok f s t hpos (by omega)
            rw [hlrun]
            dsimp only
            have hprog := hlprog hb
            obtain ⟨s', t', hrun, hby, hge, hle⟩ :=
              ih s₁ t (by rw [hlby]; exact hlle) (by rw [hlby]; omega)
            rw [hrun]
            rw [hlby] at hby hle
            exact ⟨s', t', rfl, hby, by omega, hle⟩
          · rw [if_neg hch91, if_neg hch37]
            exact ⟨s, t, rfl, rfl, le_rfl, hpos⟩
    · rw [decide_eq_false hb]
      dsimp only
      rw [if_neg (by simp)]
      exact ⟨s, t, rfl, rfl, le_rfl, hpos⟩

theorem slice_skip_movetext_ok :
    ∀ (fuel : Nat) (s : SliceSt) (t : List Ev),
      s.pos ≤ s.bytes.length → s.bytes.length - s.pos + 1 < fuel →
      ∃ s', skip_movetext sliceAdapter fuel (s, t) = some (.ok (), s', t) ∧
        s'.bytes = s.bytes ∧ s.pos ≤ s'.pos ∧ s'.pos ≤ s.bytes.length := by
  intro fuel
  induction fuel with
  | zero => intro s t _ hf; omega
  | succ f ih =>
    intro s t hpos hf
    simp only [skip_movetext]
    rw [fillM_slice]
    by_cases hb : s.pos < s.bytes.length
    · rw [decide_eq_true hb]
      dsimp only
      rw [if_pos rfl]
      cases hh : (s.bytes.drop s.pos).head? with
      | none => exact absurd (head?_drop_none_le hh) (by omega)
      | some ch =>
        rw [show sliceAdapter.bump s = (some ch, ⟨s.bytes, s.pos + 1⟩)
          from slice_bump_of_peek_some hh]
        dsimp only
        by_cases h123 : ch = 123
        · rw [if_pos h123]
          obtain ⟨s₁, hurun, huby, huge, hule, _⟩ :=
            slice_skip_until_ok 125 f ⟨s.bytes, s.pos + 1⟩ t
              (by show s.pos + 1 ≤ s.bytes.length; omega)
              (by show s.bytes.length - (s.pos + 1) < f; omega)
          rw [hurun]
          dsimp only
          have huby' : s₁.bytes = s.bytes := huby
          have huge' : s.pos + 1 ≤ s₁.pos := huge
          have hule' : s₁.pos ≤ s.bytes.length := hule
          cases hh₂ : (s₁.bytes.drop s₁.pos).head? with
          | some c =>
            rw [show sliceAdapter.bump s₁ = (some c, ⟨s₁.bytes, s₁.pos + 1⟩)
              from slice_bump_of_peek_some hh₂]
            have hlt₂ := head?_drop_some_lt hh₂
            rw [huby'] at hlt₂
            obtain ⟨s', hrun, hby, hge, hle⟩ :=
              ih ⟨s₁.bytes, s₁.pos + 1⟩ t
                (by show s₁.pos + 1 ≤ s₁.bytes.length; rw [huby']; omega)
                (by show s₁.bytes.length - (s₁.pos + 1) + 1 < f; rw [huby']; omega)
            have hby' : s'.bytes = s₁.bytes := hby
            have hge' : s₁.pos + 1 ≤ s'.pos := hge
            have hle' : s'.pos ≤ s₁.bytes.length := hle
            rw [huby'] at hby' hle'
            exact ⟨s', hrun, hby', by omega, hle'⟩
          | none =>
            rw [slice_bump_of_peek_none hh₂]
            obtain ⟨s', hrun, hby, hge, hle⟩ :=
              ih s₁ t (by rw [huby']; omega) (by rw [huby']; omega)
            rw [huby'] at hby hle
            exact ⟨s', hrun, hby, by omega, hle⟩
        · rw [if_neg h123]
          by_cases h59 : ch = 59
          · rw [if_pos h59]
            obtain ⟨s₁, hurun, huby, huge, hule, _⟩ :=
              slice_skip_until_ok 10 f ⟨s.bytes, s.pos + 1⟩ t
                (by show s.pos + 1 ≤ s.bytes.length; omega)
                (by show s.bytes.length - (s.pos + 1) < f; omega)
            rw [hurun]
            dsimp only
            have huby' : s₁.bytes = s.bytes := huby
            have huge' : s.pos + 1 ≤ s₁.pos := huge
            have hule' : s₁.pos ≤ s.bytes.length := hule
            obtain ⟨s', hrun, hby, hge, hle⟩ :=
              ih s₁ t (by rw [huby']; omega) (by rw [huby']; omega)
            rw [huby'] at hby hle
            exact ⟨s', hrun, hby, by omega, hle⟩
          · rw [if_neg h59]
            by_cases h10 : ch = 10
            · rw [if_pos h10]
              cases hh₂ : (s.bytes.drop (s.pos + 1)).head? with
              | some c2 =>
                rw [show sliceAdapter.peek (⟨s.bytes, s.pos + 1⟩ : SliceSt) = some c2 from hh₂]
                dsimp only
                have hlt₂ := head?_drop_some_lt hh₂
                by_cases hc37 : c2 = 37
                · rw [if_pos hc37]
                  obtain ⟨s₁, hurun, huby, huge, hule, _⟩ :=
                    slice_skip_until_ok 10 f ⟨s.bytes, s.pos + 1⟩ t
                      (by show s.pos + 1 ≤ s.bytes.length; omega)
                      (by show s.bytes.length - (s.pos + 1) < f; omega)
                  rw [hurun]
                  dsimp only
                  have huby' : s₁.bytes = s.bytes := huby
                  have huge' : s.pos + 1 ≤ s₁.pos := huge
                  have hule' : s₁.pos ≤ s.bytes.length := hule
                  obtain ⟨s', hrun, hby, hge, hle⟩ :=
                    ih s₁ t (by rw [huby']; omega) (by rw [huby']; omega)
                  rw [huby'] at hby hle
                  exact ⟨s', hrun, hby, by omega, hle⟩
                · rw [if_neg hc37]
                  by_cases hc1091 : c2 = 10 ∨ c2 = 91
                  · rw [if_pos hc1091]
                    exact ⟨⟨s.bytes, s.pos + 1⟩, rfl, rfl,
                      by show s.pos ≤ s.pos + 1; omega,
                      by show s.pos + 1 ≤ s.bytes.length; omega⟩
                  · rw [if_neg hc1091]
                    by_cases hc13 : c2 = 13
                    · rw [if_pos hc13,
                        show sliceAdapter.bump (⟨s.bytes, s.pos + 1⟩ : SliceSt) =
                          (some c2, ⟨s.bytes, s.pos + 1 + 1⟩)
                          from slice_bump_of_peek_some hh₂]
                      dsimp only
                      cases hh₃ : (s.bytes.drop (s.pos + 1 + 1)).head? with
                      | some c3 =>
                        rw [show sliceAdapter.peek (⟨s.bytes, s.pos + 1 + 1⟩ : SliceSt) =
                          some c3 from hh₃]
                        dsimp only
                        by_cases hc310 : c3 = 10
                        · rw [if_pos hc310]
                          exact ⟨⟨s.bytes, s.pos + 1 + 1⟩, rfl, rfl,
                            by show s.pos ≤ s.pos + 1 + 1; omega,
                            by show s.pos + 1 + 1 ≤ s.bytes.length; omega⟩
                        · rw [if_neg hc310]
                          obtain ⟨s', hrun, hby, hge, hle⟩ :=
                            ih ⟨s.bytes, s.pos + 1 + 1⟩ t
                              (by show s.pos + 1 + 1 ≤ s.bytes.length; omega)
                              (by show s.bytes.length - (s.pos + 1 + 1) + 1 < f; omega)
                          have hby' : s'.bytes = s.bytes := hby
                          have hge' : s.pos + 1 + 1 ≤ s'.pos := hge
                          have hle' : s'.pos ≤ s.bytes.length := hle
                          exact ⟨s', hrun, hby', by omega, hle'⟩
                      | none =>
                        rw [show sliceAdapter.peek (⟨s.bytes, s.pos + 1 + 1⟩ : SliceSt) =
                          none from hh₃]
                        dsimp only
                        have hge₃ := head?_drop_none_le hh₃
                        obtain ⟨s', hrun, hby, hge, hle⟩ :=
                          ih ⟨s.bytes, s.pos + 1 + 1⟩ t
                            (by show s.pos + 1 + 1 ≤ s.bytes.length; omega)
                            (by show s.bytes.length - (s.pos + 1 + 1) + 1 < f; omega)
                        have hby' : s'.bytes = s.bytes := hby
                        have hge' : s.pos + 1 + 1 ≤ s'.pos := hge
                        have hle' : s'.pos ≤ s.bytes.length := hle
                        exact ⟨s', hrun, hby', by omega, hle'⟩
                    · rw [if_neg hc13]
                      obtain ⟨s', hrun, hby, hge, hle⟩ :=
                        ih ⟨s.bytes, s.pos + 1⟩ t
                          (by show s.pos + 1 ≤ s.bytes.length; omega)
                          (by show s.bytes.length - (s.pos + 1) + 1 < f; omega)
                      have hby' : s'.bytes = s.bytes := hby
                      have hge' : s.pos + 1 ≤ s'.pos := hge
                      have hle' : s'.pos ≤ s.bytes.length := hle
                      exact ⟨s', hrun, hby', by omega, hle'⟩
              | none =>
                rw [show sliceAdapter.peek (⟨s.bytes, s.pos + 1⟩ : SliceSt) = none from hh₂]
                dsimp only
                have hge₂ := head?_drop_none_le hh₂
                obtain ⟨s', hrun, hby, hge, hle⟩ :=
                  ih ⟨s.bytes, s.pos + 1⟩ t
                    (by show s.pos + 1 ≤ s.bytes.length; omega)
                    (by show s.bytes.length - (s.pos + 1) + 1 < f; omega)
                have hby' : s'.bytes = s.bytes := hby
                have hge' : s.pos + 1 ≤ s'.pos := hge
                have hle' : s'.pos ≤ s.bytes.length := hle
                exact ⟨s', hrun, hby', by omega, hle'⟩
            · rw [if_neg h10]
              have hble : (memchr3 10 123 59 (s.bytes.drop (s.pos + 1))).getD
                  (s.bytes.drop (s.pos + 1)).length ≤ s.bytes.length - (s.pos + 1) := by
                cases hm3 : memchr3 10 123 59 (s.bytes.drop (s.pos + 1)) with
                | none => simp [List.length_drop]
                | some i =>
                  have := memchr3_some_lt 10 123 59 _ _ hm3
                  rw [List.length_drop] at this
                  simp only [Option.getD_some]
                  omega
              have hcons : sliceAdapter.consume ⟨s.bytes, s.pos + 1⟩
                  ((memchr3 10 123 59 (s.bytes.drop (s.pos + 1))).getD
                    (s.bytes.drop (s.pos + 1)).length) =
                  some ⟨s.bytes, s.pos + 1 + ((memchr3 10 123 59
                    (s.bytes.drop (s.pos + 1))).getD (s.bytes.drop (s.pos + 1)).length)⟩ := by
                simp only [sliceAdapter]
                rw [if_pos (by omega)]
              rw [show sliceAdapter.buf (⟨s.bytes, s.pos + 1⟩ : SliceSt) =
                s.bytes.drop (s.pos + 1) from rfl, hcons]
              dsimp only
              obtain ⟨s', hrun, hby, hge, hle⟩ :=
                ih ⟨s.bytes, s.pos + 1 + ((memchr3 10 123 59
                    (s.bytes.drop (s.pos + 1))).getD (s.bytes.drop (s.pos + 1)).length)⟩ t
                  (by show s.pos + 1 + _ ≤ s.bytes.length; omega)
                  (by show s.bytes.length - (s.pos + 1 + _) + 1 < f; omega)
              have hby' : s'.bytes = s.bytes := hby
              have hge' : s.pos + 1 + ((memchr3 10 123 59
                  (s.bytes.drop (s.pos + 1))).getD (s.bytes.drop (s.pos + 1)).length) ≤
                  s'.pos := hge
              have hle' : s'.pos ≤ s.bytes.length := hle
              exact ⟨s', hrun, hby', by omega, hle'⟩
    · rw [decide_eq_false hb]
      dsimp only
      rw [if_neg (by simp)]
      exact ⟨s, rfl, rfl, le_rfl, hpos⟩

/-- C10: the `SliceReader` scanning loop maintains `pos <= bytes.len()`:
with `consume` modelled as checked (an out-of-bounds count is the panic
`none`), `read_game` over the slice adapter returns a non-panic `ok`
result for every input byte string and every visitor (at fuel
`length + 2`, which the termination argument shows is sufficient), and
the final reader position never exceeds the input length. -/
theorem c10_slice_reader_no_panic (bytes : List Byte) (V : Visitor) :
    ∃ r s t, slice_read_game bytes V (bytes.length + 2) = some (.ok r, s, t) ∧
      s.bytes = bytes ∧ s.pos ≤ bytes.length := by
  simp only [slice_read_game, read_game]
  obtain ⟨s₁, hbrun, hbby, hbge, hble⟩ :=
    slice_skip_bom_ok ⟨bytes, 0⟩ [] (by show 0 ≤ bytes.length; omega)
  have hbby' : s₁.bytes = bytes := hbby
  have hble' : s₁.pos ≤ bytes.length := hble
  rw [hbrun]
  dsimp only
  obtain ⟨s₂, hwrun, hwby, hwge, hwle⟩ :=
    slice_skip_whitespace_ok (bytes.length + 2) s₁ []
      (by rw [hbby']; exact hble') (by rw [hbby']; omega)
  rw [hwrun]
  dsimp only
  have hwby' : s₂.bytes = bytes := by rw [hwby, hbby']
  have hwle' : s₂.pos ≤ bytes.length := by rw [hbby'] at hwle; exact hwle
  rw [fillM_slice]
  dsimp only
  by_cases hb2 : s₂.pos < s₂.bytes.length
  · rw [decide_eq_true hb2]
    rw [show (!true) = false from rfl]
    rw [if_neg (by simp)]
    obtain ⟨s₃, t₃, hhrun, hhby, hhge, hhle⟩ :=
      slice_read_headers_ok (bytes.length + 2) s₂ ([] ++ [.beginGame, .beginHeaders])
        (by rw [hwby']; exact hwle') (by rw [hwby']; omega)
    rw [hhrun]
    dsimp only
    have hhby' : s₃.bytes = bytes := by rw [hhby, hwby']
    have hhle' : s₃.pos ≤ bytes.length := by rw [hwby'] at hhle; exact hhle
    simp only [ite_self]
    obtain ⟨s₄, hmrun, hmby, hmge, hmle⟩ :=
      slice_skip_movetext_ok (bytes.length + 2) s₃ (t₃ ++ [.endHeaders (V.endHeadersSkip t₃)])
        (by rw [hhby']; exact hhle') (by rw [hhby']; omega)
    rw [hmrun]
    dsimp only
    have hmby' : s₄.bytes = bytes := by rw [hmby, hhby']
    have hmle' : s₄.pos ≤ bytes.length := by rw [hhby'] at hmle; exact hmle
    obtain ⟨s₅, hw2run, hw2by, hw2ge, hw2le⟩ :=
      slice_skip_whitespace_ok (bytes.length + 2) s₄
        (t₃ ++ [.endHeaders (V.endHeadersSkip t₃)])
        (by rw [hmby']; exact hmle') (by rw [hmby']; omega)
    rw [hw2run]
    dsimp only
    refine ⟨some (), s₅, _, rfl, ?_, ?_⟩
    · rw [hw2by, hmby']
    · rw [hmby'] at hw2le; exact hw2le
  · rw [decide_eq_false hb2]
    rw [show (!false) = true from rfl]
    rw [if_pos rfl]
    exact ⟨none, s₂, [], rfl, hwby', hwle'⟩

/-! ### Single-chunk simulation between the two adapters (C2) -/

theorem decide_ne_nil_bridge (s : SliceSt) :
    decide (s.bytes.drop s.pos ≠ []) = decide (s.pos < s.bytes.length) := by
  rw [decide_eq_decide]
  constructor
  · intro h
    cases hh : (s.bytes.drop s.pos).head? with
    | none => exact absurd (List.head?_eq_none_iff.mp hh) h
    | some c => exact head?_drop_some_lt hh
  · intro h hcon
    have := congrArg List.length hcon
    rw [List.length_drop] at this
    simp at this
    omega

theorem pgn_fill_nil (b : List Byte) (t : List Ev) :
    fillM pgnAdapter ((⟨b, []⟩ : PgnSt), t) =
      some (.ok (decide (b ≠ [])), ⟨b, []⟩, t) := by
  simp only [fillM, pgnAdapter]
  by_cases h : b.length < minBufferSize
  · rw [if_pos h]
    rfl
  · rw [if_neg h]

theorem fill_map (s : SliceSt) (t : List Ev) :
    fillM pgnAdapter (sliceToPgn s, t) =
      some (.ok (decide (s.pos < s.bytes.length)), sliceToPgn s, t) := by
  rw [show sliceToPgn s = (⟨s.bytes.drop s.pos, []⟩ : PgnSt) from rfl, pgn_fill_nil,
    decide_ne_nil_bridge]

theorem buf_map (s : SliceSt) :
    pgnAdapter.buf (sliceToPgn s) = s.bytes.drop s.pos := rfl

theorem peek_map (s : SliceSt) :
    pgnAdapter.peek (sliceToPgn s) = (s.bytes.drop s.pos).head? := rfl

theorem bump_map (s : SliceSt) :
    pgnAdapter.bump (sliceToPgn s) =
      ((sliceAdapter.bump s).1, sliceToPgn (sliceAdapter.bump s).2) := by
  cases hh : (s.bytes.drop s.pos).head? with
  | some c =>
    rw [show sliceAdapter.bump s = (some c, ⟨s.bytes, s.pos + 1⟩)
      from slice_bump_of_peek_some hh]
    show ((sliceToPgn s).buffer.head?, (⟨(sliceToPgn s).buffer.tail, []⟩ : PgnSt)) = _
    rw [show (sliceToPgn s).buffer.head? = some c from hh]
    show (some c, (⟨(s.bytes.drop s.pos).tail, []⟩ : PgnSt)) =
      (some c, (⟨s.bytes.drop (s.pos + 1), []⟩ : PgnSt))
    rw [List.tail_drop]
  | none =>
    rw [show sliceAdapter.bump s = (none, s) from slice_bump_of_peek_none hh]
    have hnil : s.bytes.drop s.pos = [] := List.head?_eq_none_iff.mp hh
    show ((sliceToPgn s).buffer.head?, (⟨(sliceToPgn s).buffer.tail, []⟩ : PgnSt)) =
      (none, sliceToPgn s)
    rw [show (sliceToPgn s).buffer.head? = none from hh]
    show ((none : Option Byte), (⟨(s.bytes.drop s.pos).tail, []⟩ : PgnSt)) =
      (none, (⟨s.bytes.drop s.pos, []⟩ : PgnSt))
    rw [hnil]
    rfl

theorem consume_map (s : SliceSt) (n : Nat) (hpos : s.pos ≤ s.bytes.length) :
    pgnAdapter.consume (sliceToPgn s) n =
      (sliceAdapter.consume s n).map sliceToPgn := by
  simp only [pgnAdapter, sliceAdapter, sliceToPgn, List.length_drop]
  by_cases h : s.pos + n ≤ s.bytes.length
  · rw [if_pos (by omega), if_pos h]
    simp only [Option.map_some']
    rw [List.drop_drop]
    rfl
  · rw [if_neg (by omega), if_neg h]
    rfl

theorem consumeAll_map (s : SliceSt) :
    pgnAdapter.consumeAll (sliceToPgn s) =
      sliceToPgn (sliceAdapter.consumeAll s) := by
  show (⟨[], []⟩ : PgnSt) = ⟨s.bytes.drop (s.pos + (s.bytes.length - s.pos)), []⟩
  rw [List.drop_eq_nil_of_le (by omega)]

theorem sim_skip_until (n : Byte) :
    ∀ (fuel : Nat) (s : SliceSt) (t : List Ev), s.pos ≤ s.bytes.length →
      (skip_until pgnAdapter n fuel (sliceToPgn s, t) =
        mapRes (skip_until sliceAdapter n fuel (s, t)) ∧
      (∀ r s' t', skip_until sliceAdapter n fuel (s, t) = some (r, s', t') →
        s'.bytes = s.bytes ∧ s'.pos ≤ s.bytes.length)) := by
  intro fuel
  induction fuel with
  | zero =>
    intro s t hpos
    exact ⟨rfl, fun r s' t' h => by cases h⟩
  | succ f ih =>
    intro s t hpos
    constructor
    · simp only [skip_until]
      rw [fill_map, fillM_slice]
      by_cases hb : s.pos < s.bytes.length
      · rw [decide_eq_true hb]
        dsimp only
        rw [if_pos rfl, if_pos rfl, buf_map,
          show sliceAdapter.buf s = s.bytes.drop s.pos from rfl]
        cases hm : memchr n (s.bytes.drop s.pos) with
        | some i =>
          dsimp only
          have hilt : i < s.bytes.length - s.pos := by
            have := memchr_some_lt n _ _ hm
            rwa [List.length_drop] at this
          have hcons : sliceAdapter.consume s i = some ⟨s.bytes, s.pos + i⟩ := by
            simp only [sliceAdapter]
            rw [if_pos (by omega)]
          rw [consume_map s i hpos, hcons]
          rfl
        | none =>
          dsimp only
          rw [consumeAll_map]
          exact (ih (sliceAdapter.consumeAll s) t
            (by show s.pos + (s.bytes.length - s.pos) ≤ s.bytes.length; omega)).1
      · rw [decide_eq_false hb]
        dsimp only
        rw [if_neg (by simp), if_neg (by simp)]
        rfl
    · intro r s' t' h
      simp only [skip_until] at h
      rw [fillM_slice] at h
      by_cases hb : s.pos < s.bytes.length
      · rw [decide_eq_true hb] at h
        dsimp only at h
        rw [if_pos rfl, show sliceAdapter.buf s = s.bytes.drop s.pos from rfl] at h
        cases hm : memchr n (s.bytes.drop s.pos) with
        | some i =>
          rw [hm] at h
          dsimp only at h
          have hilt : i < s.bytes.length - s.pos := by
            have := memchr_some_lt n _ _ hm
            rwa [List.length_drop] at this
          have hcons : sliceAdapter.consume s i = some ⟨s.bytes, s.pos + i⟩ := by
            simp only [sliceAdapter]
            rw [if_pos (by omega)]
          rw [hcons] at h
          dsimp only at h
          cases h
          exact ⟨rfl, by show s.pos + i ≤ s.bytes.length; omega⟩
        | none =>
          rw [hm] at h
          dsimp only at h
          obtain ⟨hby, hle⟩ := (ih (sliceAdapter.consumeAll s) t
            (by show s.pos + (s.bytes.length - s.pos) ≤ s.bytes.length; omega)).2 r s' t' h
          have hby' : s'.bytes = s.bytes := hby
          have hle' : s'.pos ≤ s.bytes.length := by
            have h2 : s'.pos ≤ (sliceAdapter.consumeAll s).bytes.length := hle
            exact h2
          exact ⟨hby', hle'⟩
      · rw [decide_eq_false hb] at h
        dsimp only at h
        rw [if_neg (by simp)] at h
        cases h
        exact ⟨rfl, hpos⟩

theorem slice_bump_snd_bytes (s : SliceSt) :
    ((sliceAdapter.bump s).2).bytes = s.bytes := by
  cases hh : (s.bytes.drop s.pos).head? with
  | some c => rw [slice_bump_of_peek_some hh]
  | none => rw [slice_bump_of_peek_none hh]

theorem slice_bump_snd_le (s : SliceSt) (hpos : s.pos ≤ s.bytes.length) :
    ((sliceAdapter.bump s).2).pos ≤ s.bytes.length := by
  cases hh : (s.bytes.drop s.pos).head? with
  | some c =>
    rw [slice_bump_of_peek_some hh]
    have := head?_drop_some_lt hh
    show s.pos + 1 ≤ s.bytes.length
    omega
  | none =>
    rw [slice_bump_of_peek_none hh]
    exact hpos

theorem sim_skip_line :
    ∀ (fuel : Nat) (s : SliceSt) (t : List Ev), s.pos ≤ s.bytes.length →
      (skip_line pgnAdapter fuel (sliceToPgn s, t) =
        mapRes (skip_line sliceAdapter fuel (s, t)) ∧
      (∀ r s' t', skip_line sliceAdapter fuel (s, t) = some (r, s', t') →
        s'.bytes = s.bytes ∧ s'.pos ≤ s.bytes.length)) := by
  intro fuel s t hpos
  constructor
  · simp only [skip_line]
    rw [(sim_skip_until 10 fuel s t hpos).1]
    cases hres : skip_until sliceAdapter 10 fuel (s, t) with
    | none => rfl
    | some res =>
      obtain ⟨r₁, s₁, t₁⟩ := res
      cases r₁ with
      | error e => exact e.elim
      | ok a =>
        dsimp only [mapRes]
        rw [bump_map s₁]
  · intro r s' t' h
    simp only [skip_line] at h
    cases hres : skip_until sliceAdapter 10 fuel (s, t) with
    | none => rw [hres] at h; cases h
    | some res =>
      rw [hres] at h
      obtain ⟨r₁, s₁, t₁⟩ := res
      cases r₁ with
      | error e => exact e.elim
      | ok a =>
        dsimp only at h
        cases h
        obtain ⟨hby, hle⟩ := (sim_skip_until 10 fuel s t hpos).2 _ _ _ hres
        refine ⟨?_, ?_⟩
        · rw [slice_bump_snd_bytes, hby]
        · have := slice_bump_snd_le s₁ (by rw [hby]; exact hle)
          rw [hby] at this
          exact this

theorem sim_skip_whitespace_inner :
    ∀ (fuel : Nat) (s : SliceSt) (t : List Ev), s.pos ≤ s.bytes.length →
      (skip_whitespace_inner pgnAdapter fuel (sliceToPgn s, t) =
        mapRes (skip_whitespace_inner sliceAdapter fuel (s, t)) ∧
      (∀ r s' t', skip_whitespace_inner sliceAdapter fuel (s, t) = some (r, s', t') →
        s'.bytes = s.bytes ∧ s'.pos ≤ s.bytes.length)) := by
  intro fuel
  induction fuel with
  | zero =>
    intro s t hpos
    exact ⟨rfl, fun r s' t' h => by cases h⟩
  | succ f ih =>
    intro s t hpos
    have hbump2 : (pgnAdapter.bump (sliceToPgn s)).2 =
        sliceToPgn ((sliceAdapter.bump s).2) := by rw [bump_map]
    constructor
    · simp only [skip_whitespace_inner]
      cases hh : (s.bytes.drop s.pos).head? with
      | none =>
        rw [show pgnAdapter.peek (sliceToPgn s) = none from hh,
          show sliceAdapter.peek s = none from hh]
        rfl
      | some ch =>
        rw [show pgnAdapter.peek (sliceToPgn s) = some ch from hh,
          show sliceAdapter.peek s = some ch from hh]
        dsimp only
        have hble := slice_bump_snd_le s hpos
        by_cases hw : ch = 32 ∨ ch = 9 ∨ ch = 13 ∨ ch = 10
        · rw [if_pos hw, if_pos hw, hbump2]
          exact (ih ((sliceAdapter.bump s).2) t (by rw [slice_bump_snd_bytes]; exact hble)).1
        · rw [if_neg hw, if_neg hw]
          by_cases hp : ch = 37
          · rw [if_pos hp, if_pos hp, hbump2]
            rw [(sim_skip_line f ((sliceAdapter.bump s).2) t
              (by rw [slice_bump_snd_bytes]; exact hble)).1]
            cases hres : skip_line sliceAdapter f ((sliceAdapter.bump s).2, t) with
            | none => rfl
            | some res =>
              obtain ⟨r₁, s₁, t₁⟩ := res
              cases r₁ with
              | error e => exact e.elim
              | ok a =>
                dsimp only [mapRes]
                obtain ⟨hby, hle⟩ := (sim_skip_line f ((sliceAdapter.bump s).2) t
                  (by rw [slice_bump_snd_bytes]; exact hble)).2 _ _ _ hres
                have hs₁ : s₁.pos ≤ s₁.bytes.length := by
                  rw [hby, slice_bump_snd_bytes]
                  rw [slice_bump_snd_bytes] at hle
                  exact hle
                exact (ih s₁ t₁ hs₁).1
          · rw [if_neg hp, if_neg hp]
            rfl
    · intro r s' t' h
      simp only [skip_whitespace_inner] at h
      cases hh : (s.bytes.drop s.pos).head? with
      | none =>
        rw [show sliceAdapter.peek s = none from hh] at h
        cases h
        exact ⟨rfl, hpos⟩
      | some ch =>
        rw [show sliceAdapter.peek s = some ch from hh] at h
        dsimp only at h
        have hble := slice_bump_snd_le s hpos
        by_cases hw : ch = 32 ∨ ch = 9 ∨ ch = 13 ∨ ch = 10
        · rw [if_pos hw] at h
          obtain ⟨hby, hle⟩ := (ih ((sliceAdapter.bump s).2) t
            (by rw [slice_bump_snd_bytes]; exact hble)).2 _ _ _ h
          rw [slice_bump_snd_bytes] at hby hle
          exact ⟨hby, hle⟩
        · rw [if_neg hw] at h
          by_cases hp : ch = 37
          · rw [if_pos hp] at h
            cases hres : skip_line sliceAdapter f ((sliceAdapter.bump s).2, t) with
            | none => rw [hres] at h; cases h
            | some res =>
              rw [hres] at h
              obtain ⟨r₁, s₁, t₁⟩ := res
              cases r₁ with
              | error e => exact e.elim
              | ok a =>
                dsimp only at h
                obtain ⟨hby, hle⟩ := (sim_skip_line f ((sliceAdapter.bump s).2) t
                  (by rw [slice_bump_snd_bytes]; exact hble)).2 _ _ _ hres
                rw [slice_bump_snd_bytes] at hby hle
                obtain ⟨hby₂, hle₂⟩ := (ih s₁ t₁ (by rw [hby]; exact hle)).2 _ _ _ h
                rw [hby] at hby₂ hle₂
                exact ⟨hby₂, hle₂⟩
          · rw [if_neg hp] at h
            cases h
            exact ⟨rfl, hpos⟩

theorem sim_skip_whitespace :
    ∀ (fuel : Nat) (s : SliceSt) (t : List Ev), s.pos ≤ s.bytes.length →
      (skip_whitespace pgnAdapter fuel (sliceToPgn s, t) =
        mapRes (skip_whitespace sliceAdapter fuel (s, t)) ∧
      (∀ r s' t', skip_whitespace sliceAdapter fuel (s, t) = some (r, s', t') →
        s'.bytes = s.bytes ∧ s'.pos ≤ s.bytes.length)) := by
  intro fuel
  induction fuel with
  | zero =>
    intro s t hpos
    exact ⟨rfl, fun r s' t' h => by cases h⟩
  | succ f ih =>
    intro s t hpos
    constructor
    · simp only [skip_whitespace]
      rw [fill_map, fillM_slice]
      by_cases hb : s.pos < s.bytes.length
      · rw [decide_eq_true hb]
        dsimp only
        rw [if_pos rfl, if_pos rfl]
        rw [(sim_skip_whitespace_inner f s t hpos).1]
        cases hres : skip_whitespace_inner sliceAdapter f (s, t) with
        | none => rfl
        | some res =>
          obtain ⟨r₁, s₁, t₁⟩ := res
          cases r₁ with
          | error e => exact e.elim
          | ok a =>
            dsimp only [mapRes]
            obtain ⟨hby, hle⟩ := (sim_skip_whitespace_inner f s t hpos).2 _ _ _ hres
            cases a with
            | true => rw [if_pos rfl, if_pos rfl]
            | false =>
              rw [if_neg (by simp), if_neg (by simp)]
              exact (ih s₁ t₁ (by rw [hby]; exact hle)).1
      · rw [decide_eq_false hb]
        dsimp only
        rw [if_neg (by simp), if_neg (by simp)]
        rfl
    · intro r s' t' h
      simp only [skip_whitespace] at h
      rw [fillM_slice] at h
      by_cases hb : s.pos < s.bytes.length
      · rw [decide_eq_true hb] at h
        dsimp only at h
        rw [if_pos rfl] at h
        cases hres : skip_whitespace_inner sliceAdapter f (s, t) with
        | none => rw [hres] at h; cases h
        | some res =>
          rw [hres] at h
          obtain ⟨r₁, s₁, t₁⟩ := res
          cases r₁ with
          | error e => exact e.elim
          | ok a =>
            dsimp only at h
            obtain ⟨hby, hle⟩ := (sim_skip_whitespace_inner f s t hpos).2 _ _ _ hres
            cases a with
            | true =>
              rw [if_pos rfl] at h
              cases h
              exact ⟨hby, hle⟩
            | false =>
              rw [if_neg (by simp)] at h
              obtain ⟨hby₂, hle₂⟩ := (ih s₁ t₁ (by rw [hby]; exact hle)).2 _ _ _ h
              rw [hby] at hby₂ hle₂
              exact ⟨hby₂, hle₂⟩
      · rw [decide_eq_false hb] at h
        dsimp only at h
        rw [if_neg (by simp)] at h
        cases h
        exact ⟨rfl, hpos⟩

theorem sim_skip_ket_inner :
    ∀ (fuel : Nat) (s : SliceSt) (t : List Ev), s.pos ≤ s.bytes.length →
      (skip_ket_inner pgnAdapter fuel (sliceToPgn s, t) =
        mapRes (skip_ket_inner sliceAdapter fuel (s, t)) ∧
      (∀ r s' t', skip_ket_inner sliceAdapter fuel (s, t) = some (r, s', t') →
        s'.bytes = s.bytes ∧ s'.pos ≤ s.bytes.length)) := by
  intro fuel
  induction fuel with
  | zero =>
    intro s t hpos
    exact ⟨rfl, fun r s' t' h => by cases h⟩
  | succ f ih =>
    intro s t hpos
    have hbump2 : (pgnAdapter.bump (sliceToPgn s)).2 =
        sliceToPgn ((sliceAdapter.bump s).2) := by rw [bump_map]
    have hble := slice_bump_snd_le s hpos
    constructor
    · simp only [skip_ket_inner]
      cases hh : (s.bytes.drop s.pos).head? with
      | none =>
        rw [show pgnAdapter.peek (sliceToPgn s) = none from hh,
          show sliceAdapter.peek s = none from hh]
        rfl
      | some ch =>
        rw [show pgnAdapter.peek (sliceToPgn s) = some ch from hh,
          show sliceAdapter.peek s = some ch from hh]
        dsimp only
        by_cases hw : ch = 32 ∨ ch = 9 ∨ ch = 13 ∨ ch = 93
        · rw [if_pos hw, if_pos hw, hbump2]
          exact (ih ((sliceAdapter.bump s).2) t (by rw [slice_bump_snd_bytes]; exact hble)).1
        · rw [if_neg hw, if_neg hw]
          by_cases hp : ch = 37
          · rw [if_pos hp, if_pos hp, hbump2]
            rw [(sim_skip_line f ((sliceAdapter.bump s).2) t
              (by rw [slice_bump_snd_bytes]; exact hble)).1]
            cases hres : skip_line sliceAdapter f ((sliceAdapter.bump s).2, t) with
            | none => rfl
            | some res =>
              obtain ⟨r₁, s₁, t₁⟩ := res
              cases r₁ with
              | error e => exact e.elim
              | ok a => rfl
          · rw [if_neg hp, if_neg hp]
            by_cases hn : ch = 10
            · rw [if_pos hn, if_pos hn, hbump2]
              rfl
            · rw [if_neg hn, if_neg hn]
              rfl
    · intro r s' t' h
      simp only [skip_ket_inner] at h
      cases hh : (s.bytes.drop s.pos).head? with
      | none =>
        rw [show sliceAdapter.peek s = none from hh] at h
        cases h
        exact ⟨rfl, hpos⟩
      | some ch =>
        rw [show sliceAdapter.peek s = some ch from hh] at h
        dsimp only at h
        by_cases hw : ch = 32 ∨ ch = 9 ∨ ch = 13 ∨ ch = 93
        · rw [if_pos hw] at h
          obtain ⟨hby, hle⟩ := (ih ((sliceAdapter.bump s).2) t
            (by rw [slice_bump_snd_bytes]; exact hble)).2 _ _ _ h
          rw [slice_bump_snd_bytes] at hby hle
          exact ⟨hby, hle⟩
        · rw [if_neg hw] at h
          by_cases hp : ch = 37
          · rw [if_pos hp] at h
            cases hres : skip_line sliceAdapter f ((sliceAdapter.bump s).2, t) with
            | none => rw [hres] at h; cases h
            | some res =>
              rw [hres] at h
              obtain ⟨r₁, s₁, t₁⟩ := res
              dsimp only at h
              cases h
              obtain ⟨hby, hle⟩ := (sim_skip_line f ((sliceAdapter.bump s).2) t
                (by rw [slice_bump_snd_bytes]; exact hble)).2 _ _ _ hres
              rw [slice_bump_snd_bytes] at hby hle
              exact ⟨hby, hle⟩
          · rw [if_neg hp] at h
            by_cases hn : ch = 10
            · rw [if_pos hn] at h
              cases h
              exact ⟨slice_bump_snd_bytes s, hble⟩
            · rw [if_neg hn] at h
              cases h
              exact ⟨rfl, hpos⟩

theorem sim_skip_ket :
    ∀ (fuel : Nat) (s : SliceSt) (t : List Ev), s.pos ≤ s.bytes.length →
      (skip_ket pgnAdapter fuel (sliceToPgn s, t) =
        mapRes (skip_ket sliceAdapter fuel (s, t)) ∧
      (∀ r s' t', skip_ket sliceAdapter fuel (s, t) = some (r, s', t') →
        s'.bytes = s.bytes ∧ s'.pos ≤ s.bytes.length)) := by
  intro fuel
  induction fuel with
  | zero =>
    intro s t hpos
    exact ⟨rfl, fun r s' t' h => by cases h⟩
  | succ f ih =>
    intro s t hpos
    constructor
    · simp only [skip_ket]
      rw [fill_map, fillM_slice]
      by_cases hb : s.pos < s.bytes.length
      · rw [decide_eq_true hb]
        dsimp only
        rw [if_pos rfl, if_pos rfl]
        rw [(sim_skip_ket_inner f s t hpos).1]
        cases hres : skip_ket_inner sliceAdapter f (s, t) with
        | none => rfl
        | some res =>
          obtain ⟨r₁, s₁, t₁⟩ := res
          cases r₁ with
          | error e => exact e.elim
          | ok a =>
            dsimp only [mapRes]
            obtain ⟨hby, hle⟩ := (sim_skip_ket_inner f s t hpos).2 _ _ _ hres
            cases a with
            | true => rw [if_pos rfl, if_pos rfl]
            | false =>
              rw [if_neg (by simp), if_neg (by simp)]
              exact (ih s₁ t₁ (by rw [hby]; exact hle)).1
      · rw [decide_eq_false hb]
        dsimp only
        rw [if_neg (by simp), if_neg (by simp)]
        rfl
    · intro r s' t' h
      simp only [skip_ket] at h
      rw [fillM_slice] at h
      by_cases hb : s.pos < s.bytes.length
      · rw [decide_eq_true hb] at h
        dsimp only at h
        rw [if_pos rfl] at h
        cases hres : skip_ket_inner sliceAdapter f (s, t) with
        | none => rw [hres] at h; cases h
        | some res =>
          rw [hres] at h
          obtain ⟨r₁, s₁, t₁⟩ := res
          cases r₁ with
          | error e => exact e.elim
          | ok a =>
            dsimp only at h
            obtain ⟨hby, hle⟩ := (sim_skip_ket_inner f s t hpos).2 _ _ _ hres
            cases a with
            | true =>
              rw [if_pos rfl] at h
              cases h
              exact ⟨hby, hle⟩
            | false =>
              rw [if_neg (by simp)] at h
              obtain ⟨hby₂, hle₂⟩ := (ih s₁ t₁ (by rw [hby]; exact hle)).2 _ _ _ h
              rw [hby] at hby₂ hle₂
              exact ⟨hby₂, hle₂⟩
      · rw [decide_eq_false hb] at h
        dsimp only at h
        rw [if_neg (by simp)] at h
        cases h
        exact ⟨rfl, hpos⟩

theorem slice_consume_facts {s s₂ : SliceSt} {n : Nat}
    (h : sliceAdapter.consume s n = some s₂) :
    s₂.bytes = s.bytes ∧ s₂.pos ≤ s.bytes.length := by
  simp only [sliceAdapter] at h
  split at h
  · cases h
    exact ⟨rfl, by assumption⟩
  · cases h

theorem fill_init (bytes : List Byte) (t : List Ev) :
    fillM pgnAdapter ((⟨[], [RdEvt.chunk bytes]⟩ : PgnSt), t) =
      some (.ok (decide (0 < bytes.length)), sliceToPgn ⟨bytes, 0⟩, t) := by
  simp only [fillM, pgnAdapter, pgnFillLoop]
  rw [if_pos (by simp [minBufferSize])]
  by_cases h0 : bytes.length = 0
  · rw [if_pos h0]
    have hnil : bytes = [] := List.length_eq_zero.mp h0
    subst hnil
    rfl
  · rw [if_neg h0]
    have hne : bytes ≠ [] := by
      intro hcon
      rw [hcon] at h0
      exact h0 rfl
    have hdec : decide (([] : List Byte) ++ bytes ≠ []) = decide (0 < bytes.length) := by
      rw [decide_eq_decide]
      simp only [List.nil_append]
      constructor
      · intro _
        cases bytes with
        | nil => exact absurd rfl hne
        | cons a l => simp
      · intro _
        exact hne
    by_cases hlen : ([] ++ bytes).length < minBufferSize
    · rw [if_pos hlen]
      simp only [pgnFillLoop]
      rw [hdec]
      rfl
    · rw [if_neg hlen]
      dsimp only
      rw [hdec]
      rfl

theorem sim_skip_bom_init (bytes : List Byte) (t : List Ev) :
    skip_bom pgnAdapter ((⟨[], [RdEvt.chunk bytes]⟩ : PgnSt), t) =
      mapRes (skip_bom sliceAdapter ((⟨bytes, 0⟩ : SliceSt), t)) := by
  simp only [skip_bom]
  rw [fill_init,
    show fillM sliceAdapter ((⟨bytes, 0⟩ : SliceSt), t) =
      some (.ok (decide (0 < bytes.length)), ⟨bytes, 0⟩, t) from fillM_slice _ t]
  dsimp only
  rw [show pgnAdapter.buf (sliceToPgn ⟨bytes, 0⟩) = bytes from rfl,
    show sliceAdapter.buf ⟨bytes, 0⟩ = bytes from rfl]
  by_cases hc : decide (0 < bytes.length) = true ∧
      List.isPrefixOf [0xEF, 0xBB, 0xBF] bytes = true
  · rw [if_pos hc, if_pos hc]
    have hlen : 3 ≤ bytes.length := by
      have := (List.isPrefixOf_iff_prefix.mp hc.2).length_le
      simpa using this
    have hcons : sliceAdapter.consume ⟨bytes, 0⟩ 3 = some ⟨bytes, 0 + 3⟩ := by
      simp only [sliceAdapter]
      rw [if_pos (by omega)]
    rw [consume_map ⟨bytes, 0⟩ 3 (by show 0 ≤ bytes.length; omega), hcons]
    rfl
  · rw [if_neg hc, if_neg hc]
    rfl

theorem sim_read_headers :
    ∀ (fuel : Nat) (s : SliceSt) (t : List Ev), s.pos ≤ s.bytes.length →
      (read_headers pgnAdapter fuel (sliceToPgn s, t) =
        mapRes (read_headers sliceAdapter fuel (s, t)) ∧
      (∀ r s' t', read_headers sliceAdapter fuel (s, t) = some (r, s', t') →
        s'.bytes = s.bytes ∧ s'.pos ≤ s.bytes.length)) := by
  intro fuel
  induction fuel with
  | zero =>
    intro s t hpos
    exact ⟨rfl, fun r s' t' h => by cases h⟩
  | succ f ih =>
    intro s t hpos
    have hbump2 : (pgnAdapter.bump (sliceToPgn s)).2 =
        sliceToPgn ((sliceAdapter.bump s).2) := by rw [bump_map]
    have hble := slice_bump_snd_le s hpos
    have hXpos : ((sliceAdapter.bump s).2).pos ≤ ((sliceAdapter.bump s).2).bytes.length := by
      rw [slice_bump_snd_bytes]
      exact hble
    constructor
    · simp only [read_headers]
      rw [fill_map, fillM_slice]
      by_cases hb : s.pos < s.bytes.length
      · rw [decide_eq_true hb]
        dsimp only
        rw [if_pos rfl, if_pos rfl]
        cases hh : (s.bytes.drop s.pos).head? with
        | none =>
          rw [show pgnAdapter.peek (sliceToPgn s) = none from hh,
            show sliceAdapter.peek s = none from hh]
          exact (ih s t hpos).1
        | some ch =>
          rw [show pgnAdapter.peek (sliceToPgn s) = some ch from hh,
            show sliceAdapter.peek s = some ch from hh]
          dsimp only
          by_cases hch91 : ch = 91
          · rw [if_pos hch91, if_pos hch91, hbump2]
            rw [show pgnAdapter.buf (sliceToPgn ((sliceAdapter.bump s).2)) =
              sliceAdapter.buf ((sliceAdapter.bump s).2) from rfl]
            cases hm : memchr2 34 10 (sliceAdapter.buf ((sliceAdapter.bump s).2)) with
            | some i =>
              dsimp only
              by_cases hq : (sliceAdapter.buf ((sliceAdapter.bump s).2)).getD i 0 = 34
              · rw [if_pos hq, if_pos hq]
                rw [consume_map ((sliceAdapter.bump s).2)
                  ((find_right_quote (sliceAdapter.buf ((sliceAdapter.bump s).2)) (i + 1)
                    ((sliceAdapter.buf ((sliceAdapter.bump s).2)).length + 1)).2) hXpos]
                cases hcons : sliceAdapter.consume ((sliceAdapter.bump s).2)
                    ((find_right_quote (sliceAdapter.buf ((sliceAdapter.bump s).2)) (i + 1)
                      ((sliceAdapter.buf ((sliceAdapter.bump s).2)).length + 1)).2) with
                | none => rfl
                | some s₂ =>
                  simp only [Option.map_some']
                  obtain ⟨hcby, hcle⟩ := slice_consume_facts hcons
                  have hs₂ : s₂.pos ≤ s₂.bytes.length := by rw [hcby]; exact hcle
                  rw [(sim_skip_ket f s₂ _ hs₂).1]
                  cases hkres : skip_ket sliceAdapter f (s₂,
                      t ++ [.header ((sliceAdapter.buf ((sliceAdapter.bump s).2)).take
                        (if 0 < i ∧ (sliceAdapter.buf ((sliceAdapter.bump s).2)).getD (i - 1) 0 = 32
                          then i - 1 else i))
                        (((sliceAdapter.buf ((sliceAdapter.bump s).2)).drop (i + 1)).take
                          ((find_right_quote (sliceAdapter.buf ((sliceAdapter.bump s).2)) (i + 1)
                            ((sliceAdapter.buf ((sliceAdapter.bump s).2)).length + 1)).1 - (i + 1)))]) with
                  | none => rfl
                  | some res =>
                    obtain ⟨r₁, s₃, t₃⟩ := res
                    cases r₁ with
                    | error e => exact e.elim
                    | ok a =>
                      dsimp only [mapRes]
                      obtain ⟨hkby, hkle⟩ := (sim_skip_ket f s₂ _ hs₂).2 _ _ _ hkres
                      exact (ih s₃ t₃ (by rw [hkby]; exact hkle)).1
              · rw [if_neg hq, if_neg hq]
                rw [consume_map ((sliceAdapter.bump s).2) (i + 1) hXpos]
                cases hcons : sliceAdapter.consume ((sliceAdapter.bump s).2) (i + 1) with
                | none => rfl
                | some s₂ =>
                  simp only [Option.map_some']
                  obtain ⟨hcby, hcle⟩ := slice_consume_facts hcons
                  exact (ih s₂ _ (by rw [hcby]; exact hcle)).1
            | none =>
              dsimp only
              rw [(sim_skip_line f ((sliceAdapter.bump s).2) t hXpos).1]
              cases hres : skip_line sliceAdapter f ((sliceAdapter.bump s).2, t) with
              | none => rfl
              | some res =>
                obtain ⟨r₁, s₁, t₁⟩ := res
                cases r₁ with
                | error e => exact e.elim
                | ok a =>
                  dsimp only [mapRes]
                  obtain ⟨hlby, hlle⟩ := (sim_skip_line f ((sliceAdapter.bump s).2) t hXpos).2 _ _ _ hres
                  exact (ih s₁ t₁ (by rw [hlby]; exact hlle)).1
          · by_cases hch37 : ch = 37
            · rw [if_neg hch91, if_pos hch37, if_neg hch91, if_pos hch37]
              rw [(sim_skip_line f s t hpos).1]
              cases hres : skip_line sliceAdapter f (s, t) with
              | none => rfl
              | some res =>
                obtain ⟨r₁, s₁, t₁⟩ := res
                cases r₁ with
                | error e => exact e.elim
                | ok a =>
                  dsimp only [mapRes]
                  obtain ⟨hlby, hlle⟩ := (sim_skip_line f s t hpos).2 _ _ _ hres
                  exact (ih s₁ t₁ (by rw [hlby]; exact hlle)).1
            · rw [if_neg hch91, if_neg hch37, if_neg hch91, if_neg hch37]
              rfl
      · rw [decide_eq_false hb]
        dsimp only
        rw [if_neg (by simp), if_neg (by simp)]
        rfl
    · intro r s' t' h
      simp only [read_headers] at h
      rw [fillM_slice] at h
      by_cases hb : s.pos < s.bytes.length
      · rw [decide_eq_true hb] at h
        dsimp only at h
        rw [if_pos rfl] at h
        cases hh : (s.bytes.drop s.pos).head? with
        | none =>
          rw [show sliceAdapter.peek s = none from hh] at h
          obtain ⟨hby, hle⟩ := (ih s t hpos).2 _ _ _ h
          exact ⟨hby, hle⟩
        | some ch =>
          rw [show sliceAdapter.peek s = some ch from hh] at h
          dsimp only at h
          by_cases hch91 : ch = 91
          · rw [if_pos hch91] at h
            cases hm : memchr2 34 10 (sliceAdapter.buf ((sliceAdapter.bump s).2)) with
            | some i =>
              rw [hm] at h
              dsimp only at h
              by_cases hq : (sliceAdapter.buf ((sliceAdapter.bump s).2)).getD i 0 = 34
              · rw [if_pos hq] at h
                cases hcons : sliceAdapter.consume ((sliceAdapter.bump s).2)
                    ((find_right_quote (sliceAdapter.buf ((sliceAdapter.bump s).2)) (i + 1)
                      ((sliceAdapter.buf ((sliceAdapter.bump s).2)).length + 1)).2) with
                | none => rw [hcons] at h; cases h
                | some s₂ =>
                  rw [hcons] at h
                  dsimp only at h
                  obtain ⟨hcby, hcle⟩ := slice_consume_facts hcons
                  rw [slice_bump_snd_bytes] at hcby hcle
                  have hs₂ : s₂.pos ≤ s₂.bytes.length := by rw [hcby]; exact hcle
                  cases hkres : skip_ket sliceAdapter f (s₂,
                      t ++ [.header ((sliceAdapter.buf ((sliceAdapter.bump s).2)).take
                        (if 0 < i ∧ (sliceAdapter.buf ((sliceAdapter.bump s).2)).getD (i - 1) 0 = 32
                          then i - 1 else i))
                        (((sliceAdapter.buf ((sliceAdapter.bump s).2)).drop (i + 1)).take
                          ((find_right_quote (sliceAdapter.buf ((sliceAdapter.bump s).2)) (i + 1)
                            ((sliceAdapter.buf ((sliceAdapter.bump s).2)).length + 1)).1 - (i + 1)))]) with
                  | none => rw [hkres] at h; cases h
                  | some res =>
                    rw [hkres] at h
                    obtain ⟨r₁, s₃, t₃⟩ := res
                    cases r₁ with
                    | error e => exact e.elim
                    | ok a =>
                      dsimp only at h
                      obtain ⟨hkby, hkle⟩ := (sim_skip_ket f s₂ _ hs₂).2 _ _ _ hkres
                      rw [hcby] at hkby hkle
                      obtain ⟨hby₂, hle₂⟩ := (ih s₃ t₃ (by rw [hkby]; exact hkle)).2 _ _ _ h
                      rw [hkby] at hby₂ hle₂
                      exact ⟨hby₂, hle₂⟩
              · rw [if_neg hq] at h
                cases hcons : sliceAdapter.consume ((sliceAdapter.bump s).2) (i + 1) with
                | none => rw [hcons] at h; cases h
                | some s₂ =>
                  rw [hcons] at h
                  dsimp only at h
                  obtain ⟨hcby, hcle⟩ := slice_consume_facts hcons
                  rw [slice_bump_snd_bytes] at hcby hcle
                  obtain ⟨hby₂, hle₂⟩ := (ih s₂ _ (by rw [hcby]; exact hcle)).2 _ _ _ h
                  rw [hcby] at hby₂ hle₂
                  exact ⟨hby₂, hle₂⟩
            | none =>
              rw [hm] at h
              dsimp only at h
              cases hres : skip_line sliceAdapter f ((sliceAdapter.bump s).2, t) with
              | none => rw [hres] at h; cases h
              | some res =>
                rw [hres] at h
                obtain ⟨r₁, s₁, t₁⟩ := res
                cases r₁ with
                | error e => exact e.elim
                | ok a =>
                  dsimp only at h
                  obtain ⟨hlby, hlle⟩ := (sim_skip_line f ((sliceAdapter.bump s).2) t hXpos).2 _ _ _ hres
                  rw [slice_bump_snd_bytes] at hlby hlle
                  obtain ⟨hby₂, hle₂⟩ := (ih s₁ t₁ (by rw [hlby]; exact hlle)).2 _ _ _ h
                  rw [hlby] at hby₂ hle₂
                  exact ⟨hby₂, hle₂⟩
          · by_cases hch37 : ch = 37
            · rw [if_neg hch91, if_pos hch37] at h
              cases hres : skip_line sliceAdapter f (s, t) with
              | none => rw [hres] at h; cases h
              | some res =>
                rw [hres] at h
                obtain ⟨r₁, s₁, t₁⟩ := res
                cases r₁ with
                | error e => exact e.elim
                | ok a =>
                  dsimp only at h
                  obtain ⟨hlby, hlle⟩ := (sim_skip_line f s t hpos).2 _ _ _ hres
                  obtain ⟨hby₂, hle₂⟩ := (ih s₁ t₁ (by rw [hlby]; exact hlle)).2 _ _ _ h
                  rw [hlby] at hby₂ hle₂
                  exact ⟨hby₂, hle₂⟩
            · rw [if_neg hch91, if_neg hch37] at h
              cases h
              exact ⟨rfl, hpos⟩
      · rw [decide_eq_false hb] at h
        dsimp only at h
        rw [if_neg (by simp)] at h
        cases h
        exact ⟨rfl, hpos⟩

theorem sim_skip_movetext :
    ∀ (fuel : Nat) (s : SliceSt) (t : List Ev), s.pos ≤ s.bytes.length →
      (skip_movetext pgnAdapter fuel (sliceToPgn s, t) =
        mapRes (skip_movetext sliceAdapter fuel (s, t)) ∧
      (∀ r s' t', skip_movetext sliceAdapter fuel (s, t) = some (r, s', t') →
        s'.bytes = s.bytes ∧ s'.pos ≤ s.bytes.length)) := by
  intro fuel
  induction fuel with
  | zero =>
    intro s t hpos
    exact ⟨rfl, fun r s' t' h => by cases h⟩
  | succ f ih =>
    intro s t hpos
    constructor
    · simp only [skip_movetext]
      rw [fill_map, fillM_slice]
      by_cases hb : s.pos < s.bytes.length
      · rw [decide_eq_true hb]
        dsimp only
        rw [if_pos rfl, if_pos rfl]
        cases hh : (s.bytes.drop s.pos).head? with
        | none =>
          rw [bump_map, slice_bump_of_peek_none hh]
          dsimp only
          exact (ih s t hpos).1
        | some ch =>
          have hlt := head?_drop_some_lt hh
          rw [bump_map, slice_bump_of_peek_some hh]
          dsimp only
          by_cases h123 : ch = 123
          · rw [if_pos h123, if_pos h123]
            rw [(sim_skip_until 125 f ⟨s.bytes, s.pos + 1⟩ t
              (by show s.pos + 1 ≤ s.bytes.length; omega)).1]
            cases hres : skip_until sliceAdapter 125 f ((⟨s.bytes, s.pos + 1⟩ : SliceSt), t) with
            | none => rfl
            | some res =>
              obtain ⟨r₁, s₁, t₁⟩ := res
              cases r₁ with
              | error e => exact e.elim
              | ok a =>
                dsimp only [mapRes]
                obtain ⟨huby, hule⟩ := (sim_skip_until 125 f ⟨s.bytes, s.pos + 1⟩ t
                  (by show s.pos + 1 ≤ s.bytes.length; omega)).2 _ _ _ hres
                have huby' : s₁.bytes = s.bytes := huby
                have hule' : s₁.pos ≤ s.bytes.length := hule
                have hs₁ : s₁.pos ≤ s₁.bytes.length := by rw [huby']; exact hule'
                rw [show (pgnAdapter.bump (sliceToPgn s₁)).2 =
                  sliceToPgn ((sliceAdapter.bump s₁).2) from by rw [bump_map]]
                exact (ih ((sliceAdapter.bump s₁).2) t₁
                  (by rw [slice_bump_snd_bytes]; exact slice_bump_snd_le s₁ hs₁)).1
          · rw [if_neg h123, if_neg h123]
            by_cases h59 : ch = 59
            · rw [if_pos h59, if_pos h59]
              rw [(sim_skip_until 10 f ⟨s.bytes, s.pos + 1⟩ t
                (by show s.pos + 1 ≤ s.bytes.length; omega)).1]
              cases hres : skip_until sliceAdapter 10 f ((⟨s.bytes, s.pos + 1⟩ : SliceSt), t) with
              | none => rfl
              | some res =>
                obtain ⟨r₁, s₁, t₁⟩ := res
                cases r₁ with
                | error e => exact e.elim
                | ok a =>
                  dsimp only [mapRes]
                  obtain ⟨huby, hule⟩ := (sim_skip_until 10 f ⟨s.bytes, s.pos + 1⟩ t
                    (by show s.pos + 1 ≤ s.bytes.length; omega)).2 _ _ _ hres
                  have huby' : s₁.bytes = s.bytes := huby
                  have hule' : s₁.pos ≤ s.bytes.length := hule
                  exact (ih s₁ t₁ (by rw [huby']; exact hule')).1
            · rw [if_neg h59, if_neg h59]
              by_cases h10 : ch = 10
              · rw [if_pos h10, if_pos h10]
                cases hh₂ : (s.bytes.drop (s.pos + 1)).head? with
                | none =>
                  rw [show pgnAdapter.peek (sliceToPgn ⟨s.bytes, s.pos + 1⟩) = none from hh₂,
                    show sliceAdapter.peek ⟨s.bytes, s.pos + 1⟩ = none from hh₂]
                  exact (ih ⟨s.bytes, s.pos + 1⟩ t
                    (by show s.pos + 1 ≤ s.bytes.length; omega)).1
                | some c2 =>
                  rw [show pgnAdapter.peek (sliceToPgn ⟨s.bytes, s.pos + 1⟩) = some c2 from hh₂,
                    show sliceAdapter.peek ⟨s.bytes, s.pos + 1⟩ = some c2 from hh₂]
                  dsimp only
                  have hlt₂ := head?_drop_some_lt hh₂
                  by_cases hc37 : c2 = 37
                  · rw [if_pos hc37, if_pos hc37]
                    rw [(sim_skip_until 10 f ⟨s.bytes, s.pos + 1⟩ t
                      (by show s.pos + 1 ≤ s.bytes.length; omega)).1]
                    cases hres : skip_until sliceAdapter 10 f ((⟨s.bytes, s.pos + 1⟩ : SliceSt), t) with
                    | none => rfl
                    | some res =>
                      obtain ⟨r₁, s₁, t₁⟩ := res
                      cases r₁ with
                      | error e => exact e.elim
                      | ok a =>
                        dsimp only [mapRes]
                        obtain ⟨huby, hule⟩ := (sim_skip_until 10 f ⟨s.bytes, s.pos + 1⟩ t
                          (by show s.pos + 1 ≤ s.bytes.length; omega)).2 _ _ _ hres
                        have huby' : s₁.bytes = s.bytes := huby
                        have hule' : s₁.pos ≤ s.bytes.length := hule
                        exact (ih s₁ t₁ (by rw [huby']; exact hule')).1
                  · rw [if_neg hc37, if_neg hc37]
                    by_cases hc1091 : c2 = 10 ∨ c2 = 91
                    · rw [if_pos hc1091, if_pos hc1091]
                      rfl
                    · rw [if_neg hc1091, if_neg hc1091]
                      by_cases hc13 : c2 = 13
                      · rw [if_pos hc13, if_pos hc13]
                        rw [show (pgnAdapter.bump (sliceToPgn ⟨s.bytes, s.pos + 1⟩)).2 =
                          sliceToPgn ((sliceAdapter.bump ⟨s.bytes, s.pos + 1⟩).2)
                          from by rw [bump_map]]
                        have hsb₂ : sliceAdapter.bump ⟨s.bytes, s.pos + 1⟩ =
                            (some c2, ⟨s.bytes, s.pos + 1 + 1⟩) :=
                          slice_bump_of_peek_some hh₂
                        rw [hsb₂]
                        dsimp only
                        cases hh₃ : (s.bytes.drop (s.pos + 1 + 1)).head? with
                        | none =>
                          rw [show pgnAdapter.peek (sliceToPgn ⟨s.bytes, s.pos + 1 + 1⟩) = none
                              from hh₃,
                            show sliceAdapter.peek ⟨s.bytes, s.pos + 1 + 1⟩ = none from hh₃]
                          exact (ih ⟨s.bytes, s.pos + 1 + 1⟩ t
                            (by show s.pos + 1 + 1 ≤ s.bytes.length; omega)).1
                        | some c3 =>
                          rw [show pgnAdapter.peek (sliceToPgn ⟨s.bytes, s.pos + 1 + 1⟩) = some c3
                              from hh₃,
                            show sliceAdapter.peek ⟨s.bytes, s.pos + 1 + 1⟩ = some c3 from hh₃]
                          dsimp only
                          by_cases hc310 : c3 = 10
                          · rw [if_pos hc310, if_pos hc310]
                            rfl
                          · rw [if_neg hc310, if_neg hc310]
                            exact (ih ⟨s.bytes, s.pos + 1 + 1⟩ t
                              (by show s.pos + 1 + 1 ≤ s.bytes.length; omega)).1
                      · rw [if_neg hc13, if_neg hc13]
                        exact (ih ⟨s.bytes, s.pos + 1⟩ t
                          (by show s.pos + 1 ≤ s.bytes.length; omega)).1
              · rw [if_neg h10, if_neg h10]
                rw [show pgnAdapter.buf (sliceToPgn ⟨s.bytes, s.pos + 1⟩) =
                  sliceAdapter.buf ⟨s.bytes, s.pos + 1⟩ from rfl]
                rw [consume_map ⟨s.bytes, s.pos + 1⟩
                  ((memchr3 10 123 59 (sliceAdapter.buf ⟨s.bytes, s.pos + 1⟩)).getD
                    (sliceAdapter.buf ⟨s.bytes, s.pos + 1⟩).length)
                  (by show s.pos + 1 ≤ s.bytes.length; omega)]
                cases hcons : sliceAdapter.consume ⟨s.bytes, s.pos + 1⟩
                    ((memchr3 10 123 59 (sliceAdapter.buf ⟨s.bytes, s.pos + 1⟩)).getD
                      (sliceAdapter.buf ⟨s.bytes, s.pos + 1⟩).length) with
                | none => rfl
                | some s₂ =>
                  simp only [Option.map_some']
                  obtain ⟨hcby, hcle⟩ := slice_consume_facts hcons
                  have hcby' : s₂.bytes = s.bytes := hcby
                  have hcle' : s₂.pos ≤ s.bytes.length := hcle
                  exact (ih s₂ t (by rw [hcby']; exact hcle')).1
      · rw [decide_eq_false hb]
        dsimp only
        rw [if_neg (by simp), if_neg (by simp)]
        rfl
    · intro r s' t' h
      simp only [skip_movetext] at h
      rw [fillM_slice] at h
      by_cases hb : s.pos < s.bytes.length
      · rw [decide_eq_true hb] at h
        dsimp only at h
        rw [if_pos rfl] at h
        cases hh : (s.bytes.drop s.pos).head? with
        | none =>
          rw [slice_bump_of_peek_none hh] at h
          dsimp only at h
          exact (ih s t hpos).2 _ _ _ h
        | some ch =>
          have hlt := head?_drop_some_lt hh
          rw [slice_bump_of_peek_some hh] at h
          dsimp only at h
          by_cases h123 : ch = 123
          · rw [if_pos h123] at h
            cases hres : skip_until sliceAdapter 125 f ((⟨s.bytes, s.pos + 1⟩ : SliceSt), t) with
            | none => rw [hres] at h; cases h
            | some res =>
              rw [hres] at h
              obtain ⟨r₁, s₁, t₁⟩ := res
              cases r₁ with
              | error e => exact e.elim
              | ok a =>
                dsimp only at h
                obtain ⟨huby, hule⟩ := (sim_skip_until 125 f ⟨s.bytes, s.pos + 1⟩ t
                  (by show s.pos + 1 ≤ s.bytes.length; omega)).2 _ _ _ hres
                have huby' : s₁.bytes = s.bytes := huby
                have hule' : s₁.pos ≤ s.bytes.length := hule
                have hs₁ : s₁.pos ≤ s₁.bytes.length := by rw [huby']; exact hule'
                obtain ⟨hby₂, hle₂⟩ := (ih ((sliceAdapter.bump s₁).2) t₁
                  (by rw [slice_bump_snd_bytes]; exact slice_bump_snd_le s₁ hs₁)).2 _ _ _ h
                rw [slice_bump_snd_bytes, huby'] at hby₂ hle₂
                exact ⟨hby₂, hle₂⟩
          · rw [if_neg h123] at h
            by_cases h59 : ch = 59
            · rw [if_pos h59] at h
              cases hres : skip_until sliceAdapter 10 f ((⟨s.bytes, s.pos + 1⟩ : SliceSt), t) with
              | none => rw [hres] at h; cases h
              | some res =>
                rw [hres] at h
                obtain ⟨r₁, s₁, t₁⟩ := res
                cases r₁ with
                | error e => exact e.elim
                | ok a =>
                  dsimp only at h
                  obtain ⟨huby, hule⟩ := (sim_skip_until 10 f ⟨s.bytes, s.pos + 1⟩ t
                    (by show s.pos + 1 ≤ s.bytes.length; omega)).2 _ _ _ hres
                  have huby' : s₁.bytes = s.bytes := huby
                  have hule' : s₁.pos ≤ s.bytes.length := hule
                  obtain ⟨hby₂, hle₂⟩ := (ih s₁ t₁ (by rw [huby']; exact hule')).2 _ _ _ h
                  rw [huby'] at hby₂ hle₂
                  exact ⟨hby₂, hle₂⟩
            · rw [if_neg h59] at h
              by_cases h10 : ch = 10
              · rw [if_pos h10] at h
                cases hh₂ : (s.bytes.drop (s.pos + 1)).head? with
                | none =>
                  rw [show sliceAdapter.peek ⟨s.bytes, s.pos + 1⟩ = none from hh₂] at h
                  obtain ⟨hby₂, hle₂⟩ := (ih ⟨s.bytes, s.pos + 1⟩ t
                    (by show s.pos + 1 ≤ s.bytes.length; omega)).2 _ _ _ h
                  exact ⟨hby₂, hle₂⟩
                | some c2 =>
                  rw [show sliceAdapter.peek ⟨s.bytes, s.pos + 1⟩ = some c2 from hh₂] at h
                  dsimp only at h
                  have hlt₂ := head?_drop_some_lt hh₂
                  by_cases hc37 : c2 = 37
                  · rw [if_pos hc37] at h
                    cases hres : skip_until sliceAdapter 10 f ((⟨s.bytes, s.pos + 1⟩ : SliceSt), t) with
                    | none => rw [hres] at h; cases h
                    | some res =>
                      rw [hres] at h
                      obtain ⟨r₁, s₁, t₁⟩ := res
                      cases r₁ with
                      | error e => exact e.elim
                      | ok a =>
                        dsimp only at h
                        obtain ⟨huby, hule⟩ := (sim_skip_until 10 f ⟨s.bytes, s.pos + 1⟩ t
                          (by show s.pos + 1 ≤ s.bytes.length; omega)).2 _ _ _ hres
                        have huby' : s₁.bytes = s.bytes := huby
                        have hule' : s₁.pos ≤ s.bytes.length := hule
                        obtain ⟨hby₂, hle₂⟩ := (ih s₁ t₁ (by rw [huby']; exact hule')).2 _ _ _ h
                        rw [huby'] at hby₂ hle₂
                        exact ⟨hby₂, hle₂⟩
                  · rw [if_neg hc37] at h
                    by_cases hc1091 : c2 = 10 ∨ c2 = 91
                    · rw [if_pos hc1091] at h
                      cases h
                      exact ⟨rfl, by show s.pos + 1 ≤ s.bytes.length; omega⟩
                    · rw [if_neg hc1091] at h
                      by_cases hc13 : c2 = 13
                      · rw [if_pos hc13] at h
                        have hsb₂ : sliceAdapter.bump ⟨s.bytes, s.pos + 1⟩ =
                            (some c2, ⟨s.bytes, s.pos + 1 + 1⟩) :=
                          slice_bump_of_peek_some hh₂
                        rw [hsb₂] at h
                        dsimp only at h
                        cases hh₃ : (s.bytes.drop (s.pos + 1 + 1)).head? with
                        | none =>
                          rw [show sliceAdapter.peek ⟨s.bytes, s.pos + 1 + 1⟩ = none from hh₃] at h
                          obtain ⟨hby₂, hle₂⟩ := (ih ⟨s.bytes, s.pos + 1 + 1⟩ t
                            (by show s.pos + 1 + 1 ≤ s.bytes.length; omega)).2 _ _ _ h
                          exact ⟨hby₂, hle₂⟩
                        | some c3 =>
                          rw [show sliceAdapter.peek ⟨s.bytes, s.pos + 1 + 1⟩ = some c3 from hh₃] at h
                          dsimp only at h
                          by_cases hc310 : c3 = 10
                          · rw [if_pos hc310] at h
                            cases h
                            exact ⟨rfl, by show s.pos + 1 + 1 ≤ s.bytes.length; omega⟩
                          · rw [if_neg hc310] at h
                            obtain ⟨hby₂, hle₂⟩ := (ih ⟨s.bytes, s.pos + 1 + 1⟩ t
                              (by show s.pos + 1 + 1 ≤ s.bytes.length; omega)).2 _ _ _ h
                            exact ⟨hby₂, hle₂⟩
                      · rw [if_neg hc13] at h
                        obtain ⟨hby₂, hle₂⟩ := (ih ⟨s.bytes, s.pos + 1⟩ t
                          (by show s.pos + 1 ≤ s.bytes.length; omega)).2 _ _ _ h
                        exact ⟨hby₂, hle₂⟩
              · rw [if_neg h10] at h
                cases hcons : sliceAdapter.consume ⟨s.bytes, s.pos + 1⟩
                    ((memchr3 10 123 59 (sliceAdapter.buf ⟨s.bytes, s.pos + 1⟩)).getD
                      (sliceAdapter.buf ⟨s.bytes, s.pos + 1⟩).length) with
                | none => rw [hcons] at h; cases h
                | some s₂ =>
                  rw [hcons] at h
                  dsimp only at h
                  obtain ⟨hcby, hcle⟩ := slice_consume_facts hcons
                  have hcby' : s₂.bytes = s.bytes := hcby
                  have hcle' : s₂.pos ≤ s.bytes.length := hcle
                  obtain ⟨hby₂, hle₂⟩ := (ih s₂ t (by rw [hcby']; exact hcle')).2 _ _ _ h
                  rw [hcby'] at hby₂ hle₂
                  exact ⟨hby₂, hle₂⟩
      · rw [decide_eq_false hb] at h
        dsimp only at h
        rw [if_neg (by simp)] at h
        cases h
        exact ⟨rfl, hpos⟩

theorem sim_read_game (bytes : List Byte) (V : Visitor) (fuel : Nat) :
    read_game pgnAdapter V fuel ((⟨[], [RdEvt.chunk bytes]⟩ : PgnSt), []) =
      mapRes (read_game sliceAdapter V fuel ((⟨bytes, 0⟩ : SliceSt), [])) := by
  simp only [read_game]
  rw [sim_skip_bom_init bytes []]
  obtain ⟨s₁, hbrun, hbby, _, hble⟩ := slice_skip_bom_ok ⟨bytes, 0⟩ []
    (by show 0 ≤ bytes.length; omega)
  rw [hbrun]
  dsimp only [mapRes]
  have hbby' : s₁.bytes = bytes := hbby
  have hble' : s₁.pos ≤ bytes.length := hble
  have hs₁ : s₁.pos ≤ s₁.bytes.length := by rw [hbby']; exact hble'
  rw [(sim_skip_whitespace fuel s₁ [] hs₁).1]
  cases hwres : skip_whitespace sliceAdapter fuel (s₁, []) with
  | none => rfl
  | some res =>
    obtain ⟨r₁, s₂, t₂⟩ := res
    cases r₁ with
    | error e => exact e.elim
    | ok a =>
      dsimp only [mapRes]
      obtain ⟨hwby, hwle⟩ := (sim_skip_whitespace fuel s₁ [] hs₁).2 _ _ _ hwres
      have hs₂ : s₂.pos ≤ s₂.bytes.length := by rw [hwby]; exact hwle
      rw [fill_map, fillM_slice]
      dsimp only
      by_cases hb2 : s₂.pos < s₂.bytes.length
      · rw [decide_eq_true hb2]
        rw [if_neg (by simp), if_neg (by simp)]
        rw [(sim_read_headers fuel s₂ _ hs₂).1]
        cases hhres : read_headers sliceAdapter fuel
            (s₂, t₂ ++ [Ev.beginGame, Ev.beginHeaders]) with
        | none => rfl
        | some res2 =>
          obtain ⟨r₂, s₃, t₃⟩ := res2
          cases r₂ with
          | error e => exact e.elim
          | ok a2 =>
            dsimp only [mapRes]
            obtain ⟨hhby, hhle⟩ := (sim_read_headers fuel s₂ _ hs₂).2 _ _ _ hhres
            have hs₃ : s₃.pos ≤ s₃.bytes.length := by rw [hhby]; exact hhle
            simp only [ite_self]
            rw [(sim_skip_movetext fuel s₃ _ hs₃).1]
            cases hmres : skip_movetext sliceAdapter fuel
                (s₃, t₃ ++ [Ev.endHeaders (V.endHeadersSkip t₃)]) with
            | none => rfl
            | some res3 =>
              obtain ⟨r₃, s₄, t₄⟩ := res3
              cases r₃ with
              | error e => exact e.elim
              | ok a3 =>
                dsimp only [mapRes]
                obtain ⟨hmby, hmle⟩ := (sim_skip_movetext fuel s₃ _ hs₃).2 _ _ _ hmres
                have hs₄ : s₄.pos ≤ s₄.bytes.length := by rw [hmby]; exact hmle
                rw [(sim_skip_whitespace fuel s₄ _ hs₄).1]
                cases hw2res : skip_whitespace sliceAdapter fuel (s₄, t₄) with
                | none => rfl
                | some res4 =>
                  obtain ⟨r₄, s₅, t₅⟩ := res4
                  cases r₄ with
                  | error e => exact e.elim
                  | ok a4 => rfl
      · rw [decide_eq_false hb2]
        rfl

theorem traceOf_mapRes {α : Type} (x : Option (Except Empty α × SliceSt × List Ev)) :
    traceOf (mapRes x) = traceOf x := by
  cases x with
  | none => rfl
  | some res =>
    obtain ⟨r, s, t⟩ := res
    cases r with
    | error e => exact e.elim
    | ok a => rfl

theorem outcomeOf_mapRes {α : Type} (x : Option (Except Empty α × SliceSt × List Ev)) :
    outcomeOf (mapRes x) = outcomeOf x := by
  cases x with
  | none => rfl
  | some res =>
    obtain ⟨r, s, t⟩ := res
    cases r with
    | error e => exact e.elim
    | ok a => rfl

/-- C2 (amended): when the incremental source delivers the entire content
in its first read, `PgnReader::read_game` and `SliceReader::read_game`
produce identical callback sequences and the same observable outcome
(normal return, surfaced I/O error, or panic), for every content, visitor
and fuel. -/
theorem c2_single_chunk_equivalence :
    ∀ (bytes : List Byte) (V : Visitor) (fuel : Nat),
      traceOf (pgn_read_game [RdEvt.chunk bytes] V fuel) =
        traceOf (slice_read_game bytes V fuel) ∧
      outcomeOf (pgn_read_game [RdEvt.chunk bytes] V fuel) =
        outcomeOf (slice_read_game bytes V fuel) := by
  intro bytes V fuel
  have h := sim_read_game bytes V fuel
  constructor
  · simp only [pgn_read_game, slice_read_game]
    rw [h, traceOf_mapRes]
  · simp only [pgn_read_game, slice_read_game]
    rw [h, outcomeOf_mapRes]

/-! ### Key run evaluations (each expensive evaluation is done once) -/

set_option maxHeartbeats 1000000 in
theorem key_c1 : slice_read_game c1_input (constVisitor false true) 200 =
    some (Except.ok (some ()), ⟨c1_input, 31⟩,
      [Ev.beginGame, Ev.beginHeaders, Ev.header [65] [98],
       Ev.endHeaders false, Ev.endGame]) := by decide

set_option maxHeartbeats 1000000 in
theorem key_c5 : pgn_read_game c5_source (constVisitor false false) 200 =
    some (Except.ok (some ()), ⟨[], []⟩,
      [Ev.beginGame, Ev.beginHeaders, Ev.header [65] [98],
       Ev.endHeaders false, Ev.endGame]) := by decide

set_option maxHeartbeats 1000000 in
theorem key_c2p : pgn_read_game c2_source (constVisitor false false) 200 =
    some (Except.ok (some ()), ⟨[], []⟩,
      [Ev.beginGame, Ev.beginHeaders, Ev.endHeaders false, Ev.endGame]) := by decide

set_option maxHeartbeats 1000000 in
theorem key_c2s : slice_read_game c2_content (constVisitor false false) 200 =
    some (Except.ok (some ()), ⟨c2_content, 9⟩,
      [Ev.beginGame, Ev.beginHeaders, Ev.header [65] [98],
       Ev.endHeaders false, Ev.endGame]) := by decide

set_option maxHeartbeats 1000000 in
theorem key_c7a : slice_read_game c7_input (constVisitor true false) 300 =
    some (Except.ok (some ()), ⟨c7_input, 16⟩,
      [Ev.beginGame, Ev.beginHeaders, Ev.header [65] [49],
       Ev.endHeaders true, Ev.endGame]) := by decide

set_option maxHeartbeats 1000000 in
theorem key_c7b : read_game sliceAdapter (constVisitor false false) 300
      ((⟨c7_input, 16⟩ : SliceSt), ([] : List Ev)) =
    some (Except.ok (some ()), ⟨c7_input, 29⟩,
      [Ev.beginGame, Ev.beginHeaders, Ev.header [66] [50],
       Ev.endHeaders false, Ev.endGame]) := by decide

set_option maxHeartbeats 1000000 in
theorem key_c8a : read_headers sliceAdapter 50 ((⟨c8_block_a, 0⟩ : SliceSt), ([] : List Ev)) =
    some (Except.ok (), ⟨c8_block_a, 14⟩,
      [Ev.header [65] [117], Ev.header [66] [118]]) := by decide

set_option maxHeartbeats 1000000 in
theorem key_c8b : read_headers sliceAdapter 50 ((⟨c8_block_b, 0⟩ : SliceSt), ([] : List Ev)) =
    some (Except.ok (), ⟨c8_block_b, 13⟩,
      [Ev.header [78, 111, 81] [], Ev.header [67] [120]]) := by decide

/-! ### Claim theorems -/

/-- C1: the claim says reading the game `e4 (d4 (Nf3) Nf6) e5` with a
visitor whose `end_headers` answers `Skip(false)` and whose
`begin_variation` answers `Skip(true)` invokes the move callback exactly
twice (`e4`, `e5`).  The code violates this: `read_game` calls
`skip_movetext` in both branches of the `Skip` test and no movetext
callback is ever produced — the full callback trace of the run contains
no `san` event at all, while the reader still scans to the end of the
game (final position = input length). -/
theorem c1_move_callback_never_invoked :
    traceOf (slice_read_game c1_input (constVisitor false true) 200) =
      [Ev.beginGame, Ev.beginHeaders, Ev.header [65] [98],
       Ev.endHeaders false, Ev.endGame] ∧
    (traceOf (slice_read_game c1_input (constVisitor false true) 200)).countP isSanEv = 0 ∧
    (stateOf (slice_read_game c1_input (constVisitor false true) 200)).pos =
      c1_input.length := by
  refine ⟨?_, ?_, ?_⟩ <;> rw [key_c1] <;> decide

/-- C3: the claim (and the code's own doc-test and unit test) say
`Clock::from_ascii " [%clk 0:01:00] "` returns `Ok(Clock(60))`.  The code
parses only the single byte `s[12..13]` (the digit `0`) and returns
`Ok(Clock(0))`. -/
theorem c3_clock_parses_byte_twelve_only :
    clock_from_ascii clk_input = some (Except.ok 0) ∧
    clock_from_ascii clk_input ≠ some (Except.ok 60) := by
  refine ⟨?_, ?_⟩ <;> decide

/-- C4 counterexample: the claim says every input shorter than 7 bytes
yields `Err(InvalidClock)` and construction never panics; on the empty
input the slice expression `&s[0..7]` panics instead. -/
theorem c4_short_input_panics :
    clock_from_ascii [] = none ∧ clock_from_ascii [] ≠ some (Except.error ()) := by
  refine ⟨?_, ?_⟩ <;> decide

/-- C4 (amended): every input of length at least 7 that does not begin
with `" [%clk "` yields `Err(InvalidClock)`; construction is not total —
an input shorter than 7 bytes panics on `&s[0..7]`, and an input matching
the prefix but shorter than 13 bytes (such as `" [%clk "` itself) panics
on `&s[12..13]`. -/
theorem c4_nonmatching_inputs_fail :
    (∀ s : List Byte, 7 ≤ s.length → s.take 7 ≠ asciiBytes " [%clk " →
      clock_from_ascii s = some (Except.error ())) ∧
    clock_from_ascii (asciiBytes " [%clk ") = none := by
  constructor
  · intro s h7 hp
    unfold clock_from_ascii
    rw [if_pos h7, if_neg hp]
  · decide

/-- C4 witness: the amended theorem applied at the concrete 7-byte input
`"abcdefg"`. -/
theorem c4_witness :
    7 ≤ (asciiBytes "abcdefg").length ∧
    (asciiBytes "abcdefg").take 7 ≠ asciiBytes " [%clk " ∧
    clock_from_ascii (asciiBytes "abcdefg") = some (Except.error ()) :=
  ⟨by decide, by decide, c4_nonmatching_inputs_fail.1 _ (by decide) (by decide)⟩

/-- C5 counterexample: the claim says every I/O failure during
`PgnReader::read_game` is surfaced, in particular one raised while
skipping a `%`-comment line inside `skip_ket`.  With `c5_source` the
failing read happens exactly there, `skip_ket` discards the `Result` of
`skip_line`, and `read_game` returns `Ok(Some(..))` with the whole
source — the error event included — consumed. -/
theorem c5_skip_ket_swallows_io_error :
    RdEvt.ioError ∈ c5_source ∧
    outcomeOf (pgn_read_game c5_source (constVisitor false false) 200) =
      some (some (some ())) ∧
    (stateOf (pgn_read_game c5_source (constVisitor false false) 200)).source = [] := by
  refine ⟨by decide, ?_, ?_⟩ <;> rw [key_c5] <;> decide

/-- C5 (amended): an I/O failure raised during the `%`-comment line skip
at the end of a header record (inside `skip_ket`, where the source drops
the `Result` of `skip_line`) is silently discarded — the reader consumes
the error from the source and `read_game` still returns the game — while
an I/O failure raised by the other scanning paths (here: the very first
`fill_buffer`) is surfaced as the call's error result. -/
theorem c5_io_error_amended :
    (outcomeOf (pgn_read_game c5_source (constVisitor false false) 200) =
        some (some (some ())) ∧
      (stateOf (pgn_read_game c5_source (constVisitor false false) 200)).source = []) ∧
    outcomeOf (pgn_read_game [RdEvt.ioError] (constVisitor false false) 200) =
      some none := by
  refine ⟨⟨?_, ?_⟩, ?_⟩
  · rw [key_c5]; rfl
  · rw [key_c5]; rfl
  · decide


/-- C8: malformed header records never abort the block (`read_headers`):
an unterminated quoted value ends at the newline and the following valid
record is still reported; a record with a newline before any quote is
reported as its key with an empty value and the following valid record is
still reported. -/
theorem c8_malformed_header_recovery :
    traceOf (read_headers sliceAdapter 50 ((⟨c8_block_a, 0⟩ : SliceSt), ([] : List Ev))) =
      [Ev.header [65] [117], Ev.header [66] [118]] ∧
    traceOf (read_headers sliceAdapter 50 ((⟨c8_block_b, 0⟩ : SliceSt), ([] : List Ev))) =
      [Ev.header (asciiBytes "NoQ") [], Ev.header [67] [120]] := by
  refine ⟨?_, ?_⟩
  · rw [key_c8a]; decide
  · rw [key_c8b]; decide

/-- C2 counterexample: the same byte content, fed to the in-memory
adapter and to the incremental adapter through a source that delivers
`"[A "` and then zero-length reads (legal for `io::Read`), produces
different callback sequences: the slice run reports the header record,
the incremental run reports none (its `read_headers` saw a truncated
window, found no quote or newline, and skipped the record as a line). -/
theorem c2_adapters_can_diverge :
    contentOf c2_source = c2_content ∧
    traceOf (pgn_read_game c2_source (constVisitor false false) 200) ≠
      traceOf (slice_read_game c2_content (constVisitor false false) 200) := by
  refine ⟨by decide, ?_⟩
  rw [key_c2p, key_c2s]
  decide

/-- C6 counterexample: the claim says four consecutive backslashes decode
to two backslashes; `RawHeader::decode` produces a single backslash
(every backslash followed by a backslash is dropped, including the
middle ones of the run). -/
theorem c6_four_backslashes :
    rawheader_decode [92, 92, 92, 92] = [92] ∧
    rawheader_decode [92, 92, 92, 92] ≠ [92, 92] := by
  refine ⟨?_, ?_⟩ <;> decide

/-- C7: with a visitor whose `end_headers` always answers `Skip(true)`,
`read_game` produces none of the `move`/`comment`/`nag`/variation
callbacks for any input, yet still advances past the game's movetext: on
the two-game input, a second `read_game` from the final state reports the
second game's first header. -/
theorem c7_skip_headers_no_movetext_callbacks :
    (∀ (bytes : List Byte) (fuel : Nat) (V : Visitor),
      (∀ t, V.endHeadersSkip t = true) →
      (traceOf (slice_read_game bytes V fuel)).countP isMovetextEv = 0) ∧
    traceOf (read_game sliceAdapter (constVisitor false false) 300
        (stateOf (slice_read_game c7_input (constVisitor true false) 300), [])) =
      [Ev.beginGame, Ev.beginHeaders, Ev.header [66] [50],
       Ev.endHeaders false, Ev.endGame] := by
  constructor
  · intro bytes fuel V _
    exact slice_read_game_no_movetext bytes V fuel
  · rw [key_c7a]
    rw [show stateOf (some (Except.ok (some ()), (⟨c7_input, 16⟩ : SliceSt),
          [Ev.beginGame, Ev.beginHeaders, Ev.header [65] [49],
           Ev.endHeaders true, Ev.endGame])) = (⟨c7_input, 16⟩ : SliceSt) from rfl]
    rw [key_c7b]
    rfl

/-- C7 witness: the universal part applied to the two-game input and the
always-skip visitor. -/
theorem c7_witness :
    (∀ t, (constVisitor true false).endHeadersSkip t = true) ∧
    (traceOf (slice_read_game c7_input (constVisitor true false) 300)).countP
      isMovetextEv = 0 :=
  ⟨fun _ => rfl,
   c7_skip_headers_no_movetext_callbacks.1 c7_input 300 (constVisitor true false)
     (fun _ => rfl)⟩

/-! ### C6: decode of escape-free values -/

theorem backslash_positions_mem :
    ∀ (s : List Byte) (p : Nat), p ∈ backslash_positions s → s[p]? = some 92 := by
  intro s
  induction s with
  | nil => simp [backslash_positions]
  | cons c rest ih =>
    intro p hp
    rw [backslash_positions] at hp
    simp only [List.mem_append] at hp
    rcases hp with hp | hp
    · split at hp
      · simp only [List.mem_singleton] at hp
        subst hp
        simp [*]
      · simp at hp
    · simp only [List.mem_map] at hp
      obtain ⟨q, hq, rfl⟩ := hp
      simpa using ih q hq

theorem hasEscapePair_eq_false :
    ∀ (s : List Byte), hasEscapePair s = false →
      ∀ i c2, s[i]? = some 92 → s[i + 1]? = some c2 → ¬(c2 = 92 ∨ c2 = 34) := by
  intro s
  induction s with
  | nil => intro _ i c2 h1; simp at h1
  | cons c rest ih =>
    intro hf i c2 h1 h2
    rw [hasEscapePair] at hf
    simp only [Bool.or_eq_false_iff] at hf
    obtain ⟨hf1, hf2⟩ := hf
    cases i with
    | zero =>
      simp only [List.getElem?_cons_zero, Option.some_inj] at h1
      simp only [List.getElem?_cons_succ] at h2
      intro hor
      have hg : rest.getD 0 0 = c2 := by
        cases rest with
        | nil => simp at h2
        | cons d ds =>
          simp only [List.getElem?_cons_zero, Option.some_inj] at h2
          simp [h2]
      have hcnd : c = 92 ∧ (rest.getD 0 0 = 92 ∨ rest.getD 0 0 = 34) := by
        refine ⟨h1, ?_⟩
        rcases hor with h | h
        · left; rw [hg, h]
        · right; rw [hg, h]
      rw [if_pos hcnd] at hf1
      exact Bool.noConfusion hf1
    | succ j =>
      simp only [List.getElem?_cons_succ] at h1 h2
      exact ih hf2 j c2 h1 h2

theorem decode_go_no_escape :
    ∀ (s : List Byte) (ps : List Nat) (hd : Nat × List Byte),
      (∀ p ∈ ps, ∀ ch, s[p + 1]? = some ch → ¬(ch = 92 ∨ ch = 34)) →
      decode_go s hd ps = hd := by
  intro s ps
  induction ps with
  | nil => intro hd _; rcases hd with ⟨h1, h2⟩; rfl
  | cons p rest ih =>
    intro hd hcond
    rcases hd with ⟨head, dec⟩
    rw [decode_go]
    cases hh : s[p + 1]? with
    | none => exact ih _ (fun q hq => hcond q (List.mem_cons_of_mem _ hq))
    | some ch =>
      dsimp only
      rw [if_neg (hcond p (List.mem_cons_self _ _) ch hh)]
      exact ih _ (fun q hq => hcond q (List.mem_cons_of_mem _ hq))

/-- C6 (amended): `RawHeader::decode` deletes every backslash immediately
followed by a backslash or a quote: the 8-byte value
backslash-quote-a-backslash-backslash-b-backslash-quote decodes to the 5
bytes quote,a,backslash,b,quote; backslash-quote decodes to a quote and
an isolated backslash-backslash pair to a single backslash; but in a run
of consecutive backslashes every backslash followed by another backslash
is dropped, so four backslashes decode to one backslash; and a value with
no escape sequence decodes to itself unchanged. -/
theorem c6_decode_amended :
    rawheader_decode [92, 34, 97, 92, 92, 98, 92, 34] = [34, 97, 92, 98, 34] ∧
    rawheader_decode [92, 34] = [34] ∧
    rawheader_decode [92, 92] = [92] ∧
    rawheader_decode [92, 92, 92, 92] = [92] ∧
    (∀ s : List Byte, hasEscapePair s = false → rawheader_decode s = s) := by
  refine ⟨by decide, by decide, by decide, by decide, ?_⟩
  intro s hs
  unfold rawheader_decode
  rw [decode_go_no_escape s (backslash_positions s) (0, [])
    (fun p hp ch hch =>
      hasEscapePair_eq_false s hs p ch (backslash_positions_mem s p hp) hch)]
  simp

/-- C6 witness: an escape-free value decodes to itself. -/
theorem c6_witness :
    hasEscapePair (asciiBytes "Hi") = false ∧
    rawheader_decode (asciiBytes "Hi") = asciiBytes "Hi" :=
  ⟨by decide, c6_decode_amended.2.2.2.2 _ (by decide)⟩

/-! ### C9: NAG grammar -/

theorem digitsVal_nil (acc : Nat) : digitsVal acc [] = acc := rfl

theorem digitsVal_cons (acc c : Nat) (rest : List Byte) :
    digitsVal acc (c :: rest) = digitsVal (acc * 10 + (c - 48)) rest := rfl

theorem digitsVal_mono : ∀ (l : List Byte) (acc : Nat), acc ≤ digitsVal acc l := by
  intro l
  induction l with
  | nil => intro acc; rw [digitsVal_nil]
  | cons c rest ih =>
    intro acc
    rw [digitsVal_cons]
    have h1 := ih (acc * 10 + (c - 48))
    have h2 : acc ≤ acc * 10 + (c - 48) := by omega
    omega

theorem btou_go_eq : ∀ (l : List Byte) (acc : Nat), acc ≤ 255 →
    btou_go acc l =
      if l.all isDigitByte ∧ digitsVal acc l ≤ 255 then some (digitsVal acc l)
      else none := by
  intro l
  induction l with
  | nil =>
    intro acc h
    have hb : btou_go acc [] = some acc := rfl
    rw [hb, digitsVal_nil, if_pos ⟨rfl, h⟩]
  | cons c rest ih =>
    intro acc hacc
    have hgo : btou_go acc (c :: rest) =
        if 48 ≤ c ∧ c ≤ 57 then
          if acc * 10 + (c - 48) ≤ 255 then btou_go (acc * 10 + (c - 48)) rest
          else none
        else none := rfl
    by_cases hd : 48 ≤ c ∧ c ≤ 57
    · have hdig : isDigitByte c = true := by
        simp only [isDigitByte, Bool.and_eq_true, decide_eq_true_eq]
        exact hd
      by_cases hov : acc * 10 + (c - 48) ≤ 255
      · rw [hgo, if_pos hd, if_pos hov, ih _ hov, digitsVal_cons]
        simp only [List.all_cons, hdig, Bool.true_and]
      · have hmono := digitsVal_mono rest (acc * 10 + (c - 48))
        have hcnd : ¬((c :: rest).all isDigitByte = true ∧
            digitsVal acc (c :: rest) ≤ 255) := by
          rintro ⟨_, hle⟩
          rw [digitsVal_cons] at hle
          omega
        rw [hgo, if_pos hd, if_neg hov, if_neg hcnd]
    · have hdig : isDigitByte c = false := by
        cases hb : isDigitByte c
        · rfl
        · exact absurd (by simpa [isDigitByte] using hb) hd
      have hcnd : ¬((c :: rest).all isDigitByte = true ∧
          digitsVal acc (c :: rest) ≤ 255) := by
        rintro ⟨hall, _⟩
        simp only [List.all_cons, Bool.and_eq_true] at hall
        rw [hdig] at hall
        exact Bool.noConfusion hall.1
      rw [hgo, if_neg hd, if_neg hcnd]

theorem btou_eq : ∀ s : List Byte, btou s =
    if s ≠ [] ∧ s.all isDigitByte ∧ digitsVal 0 s ≤ 255 then some (digitsVal 0 s)
    else none := by
  intro s
  cases s with
  | nil =>
    have h : btou ([] : List Byte) = none := rfl
    rw [h, if_neg (fun hcon => hcon.1 rfl)]
  | cons c rest =>
    have h0 : btou (c :: rest) = btou_go 0 (c :: rest) := rfl
    rw [h0, btou_go_eq _ 0 (by omega)]
    by_cases hc : (c :: rest).all isDigitByte = true ∧ digitsVal 0 (c :: rest) ≤ 255
    · rw [if_pos hc, if_pos ⟨List.cons_ne_nil c rest, hc.1, hc.2⟩]
    · rw [if_neg hc, if_neg (fun hcon => hc ⟨hcon.2.1, hcon.2.2⟩)]

set_option maxRecDepth 4000 in
set_option maxHeartbeats 1000000 in
/-- C9: the six glyphs map to codes 1–6; `$` alone is invalid;
`$<decimal digits of n>` yields `n` for every `n < 256`; and in general
`Nag::from_ascii` agrees exactly with the specification-shaped grammar
`nag_spec` — it succeeds on the glyphs and on `$` followed by a non-empty
all-digit run denoting a value of at most 255, and fails with
`InvalidNag` on everything else. -/
theorem c9_nag_grammar :
    (nag_from_ascii (asciiBytes "!") = .ok 1 ∧ nag_from_ascii (asciiBytes "?") = .ok 2 ∧
     nag_from_ascii (asciiBytes "!!") = .ok 3 ∧ nag_from_ascii (asciiBytes "??") = .ok 4 ∧
     nag_from_ascii (asciiBytes "!?") = .ok 5 ∧ nag_from_ascii (asciiBytes "?!") = .ok 6) ∧
    nag_from_ascii (asciiBytes "$") = .error () ∧
    (∀ n : Nat, n < 256 → nag_from_ascii (36 :: natDigits n) = .ok n) ∧
    (∀ s : List Byte, nag_from_ascii s =
      match nag_spec s with
      | some n => .ok n
      | none => .error ()) := by
  refine ⟨⟨by decide, by decide, by decide, by decide, by decide, by decide⟩,
    by decide, by decide, ?_⟩
  intro s
  by_cases h1 : s = asciiBytes "?!"
  · subst h1; decide
  by_cases h2 : s = asciiBytes "?"
  · subst h2; decide
  by_cases h3 : s = asciiBytes "??"
  · subst h3; decide
  by_cases h4 : s = asciiBytes "!"
  · subst h4; decide
  by_cases h5 : s = asciiBytes "!!"
  · subst h5; decide
  by_cases h6 : s = asciiBytes "!?"
  · subst h6; decide
  unfold nag_from_ascii nag_spec
  simp only [if_neg h1, if_neg h2, if_neg h3, if_neg h4, if_neg h5, if_neg h6]
  by_cases hdol : 1 < s.length ∧ s.getD 0 0 = 36
  · rw [if_pos hdol, if_pos hdol, btou_eq]
    have hd1 : 1 < s.length := hdol.1
    have hlen : (s.drop 1).length = s.length - 1 := by simp
    have hne : s.drop 1 ≠ [] := by
      intro hcon
      rw [hcon] at hlen
      simp only [List.length_nil] at hlen
      omega
    by_cases hc : (s.drop 1).all isDigitByte = true ∧ digitsVal 0 (s.drop 1) ≤ 255
    · rw [if_pos ⟨hne, hc.1, hc.2⟩, if_pos hc]
    · rw [if_neg (fun hcon => hc ⟨hcon.2.1, hcon.2.2⟩), if_neg hc]
  · rw [if_neg hdol, if_neg hdol]

/-- C9 witness: `$42` parses to 42 via the amended theorem's digit
clause. -/
theorem c9_witness :
    nag_from_ascii (36 :: natDigits 42) = .ok 42 :=
  c9_nag_grammar.2.2.1 42 (by decide)

end PgnModel
